import Mathlib

/-!
# Merged-blocks checker (`tools/check_blocks.go`)

A shallow embedding of `CheckMergedBlocks`, `validateBlockSegment` and
`WalkBlockPrefix`.  Go's `uint64` values are natural numbers kept below `2^64`
by explicit wrap-around; `int64` values are integers.  Printed lines are
recorded, in order, as values of `Line`.  A Go runtime panic (index out of
range) is the result `none`; a nil dereference inside the block loop is a
flag next to the state it leaves behind.

The generated enum `PrintOutputMode` (`tools_print_enum.go`) is embedded in
the namespace `Firecore`, with the rune mapping of `strings.ToLower` as a
parameter.
-/

namespace Tools

/-! ## Machine arithmetic -/

/-- The constant `MaxUint64 = ^uint64(0)`. -/
def MaxUint64 : Nat := 2 ^ 64 - 1

/-- Addition of two `uint64` values (wraps around). -/
def add64 (a b : Nat) : Nat := (a + b) % 2 ^ 64

/-- Subtraction of two `uint64` values (wraps around). -/
def sub64 (a b : Nat) : Nat := (a % 2 ^ 64 + (2 ^ 64 - b % 2 ^ 64)) % 2 ^ 64

/-- The conversion `uint64(x)` of an `int64`. -/
def toUint64 (x : Int) : Nat := (x % 2 ^ 64).toNat

/-- The conversion `int64(x)` of a `uint64`. -/
def toInt64 (x : Nat) : Int :=
  if x % 2 ^ 64 < 2 ^ 63 then ((x % 2 ^ 64 : Nat) : Int) else ((x % 2 ^ 64 : Nat) : Int) - 2 ^ 64

/-! ## Data model -/

/-- The fields of `bstream.Block` the checker reads. -/
structure Block where
  Number : Nat
  Id : String
  PreviousId : String
  LibNum : Nat
deriving DecidableEq, Repr

/-- The type `PrintDetails` with its three constants. -/
inductive PrintDetails where
  | PrintNoDetails
  | PrintStats
  | PrintFull
deriving DecidableEq, Repr

/-- Modelled from the spec: the type `BlockRange` is declared outside the given
sources.  `Start` is an `int64` (inclusive) and `Stop` an optional `uint64`
(exclusive), as the conversions at its uses in `check_blocks.go` show. -/
structure BlockRange where
  Start : Int
  Stop : Option Nat
deriving DecidableEq, Repr

/-- Modelled from the spec: `NewClosedRange(start, stop)`, declared outside the
given sources, builds the range with both bounds set. -/
def NewClosedRange (start : Int) (stop : Nat) : BlockRange := ⟨start, some stop⟩

/-- Modelled from the spec: a range is open when it has no stop. -/
def BlockRange.IsOpen (r : BlockRange) : Bool := r.Stop.isNone

/-- Modelled from the spec: a range is closed when it has a stop. -/
def BlockRange.IsClosed (r : BlockRange) : Bool := r.Stop.isSome

/-- Modelled from the spec: a range is resolved when its start is a real block
number (`start ≥ 0`), so that `uint64(blockRange.Start)` is the start itself. -/
def BlockRange.IsResolved (r : BlockRange) : Bool := decide (0 ≤ r.Start)

/-- Modelled from the spec: `roundToBundleStart(n, size) = n - (n mod size)`,
declared outside the given sources. -/
def RoundToBundleStartBlock (block fileBlockSize : Nat) : Nat :=
  block - block % fileBlockSize

/-- Modelled from the spec: `roundToBundleEnd(n, size) =
roundToBundleStart(n, size) + size - 1`, on `uint64`. -/
def RoundToBundleEndBlock (block fileBlockSize : Nat) : Nat :=
  add64 (block - block % fileBlockSize) (sub64 fileBlockSize 1)

/-- One printed line of the report (the `fmt.Printf`/`fmt.Println` calls), or a
call of the block printer. -/
inductive Line where
  /-- `Checking block holes on %s`. -/
  | checking (storeURL : String)
  /-- `Detailed printing requested: ...`. -/
  | detailed
  /-- `✅ Range %s`. -/
  | covered (r : BlockRange)
  /-- `❌ Range %s (Missing, [%s])`. -/
  | missing (r : BlockRange)
  /-- `🔶 Range %s has issues with forks, last linkable block number: %d`. -/
  | forkIssue (r : BlockRange) (lastLinkable : Nat)
  /-- The empty line before the summary. -/
  | blank
  /-- `Summary:`. -/
  | summary
  /-- `> 🔶 Incomplete range %s, started at block %s and stopped at block: %s`. -/
  | incomplete (r : BlockRange) (lowest highest : Nat)
  /-- `> 🆘 Holes found!`. -/
  | holesFound
  /-- `> 🆗 No hole found`. -/
  | noHoleFound
  /-- `❌ Unable to read blocks segment %s: %s`. -/
  | unableToRead (segment : String)
  /-- `🔶 Block #%d is not linkable at this point`. -/
  | notLinkable (num : Nat)
  /-- `❌ Large gap of %d unlinkable blocks found in chain. ...`. -/
  | largeGap (count lastLinked firstUnlinkable : Nat)
  /-- The call `blockPrinter(block)`. -/
  | blockPrinter (b : Block)
  /-- The full rendering of a block (`fmt.Println(string(out))`). -/
  | fullBlock (b : Block)
  /-- `❌ Unable to print full block %s: %s`. -/
  | unableToPrint (b : Block)
  /-- `🔶 Segment %s contained only %d blocks (< 100), ...`. -/
  | shortSegment (segment : String) (seen : Nat)
  /-- `❌ Unable to read all blocks from segment %s after reading %d blocks: %s`. -/
  | readFailed (segment : String) (seen : Nat)
deriving DecidableEq, Repr

/-! ## External collaborators -/

/-- The operations of `forkable.ForkDB` the checker calls, over an abstract
state `F`.  `ReversibleSegment` answers whether the returned segment is
non-nil. -/
structure ForkDB (F : Type) where
  NewForkDB : F
  HasLIB : F → Bool
  InitLIB : F → Block → F
  AddLink : F → Block → F
  ReversibleSegment : F → Block → Bool
  SetLIB : F → Block → F
  PurgeBeforeLIB : F → F

/-- What opening and decoding one stored object yields: the open fails, the
reader factory fails, or the reader returns the blocks one by one and then
either `io.EOF` or an error. -/
inductive Segment where
  | openError
  | readerError
  | stream (blocks : List Block) (endsWithError : Bool)

/-- A `dstore.Store`: the object names in listing order, the content of each
object, whether the listing itself fails, and whether its `Walk` ends the
listing at the first `dstore.StopIteration` the callback returns.  The walker
is the store's, outside the repository: `CheckMergedBlocks` only returns the
signal from its callback, and what the walker does with it is a parameter. -/
structure Store where
  keys : List String
  OpenObject : String → Segment
  listFails : Bool
  endsAtStop : Bool

/-- Everything `CheckMergedBlocks` reaches outside its own arguments. -/
structure Env (F : Type) where
  fdb : ForkDB F
  NewDBinStore : String → Option Store
  GetProtocolFirstStreamableBlock : Nat
  marshalFails : Block → Bool

/-! ## `WalkBlockPrefix` -/

/-- The decimal digit character of `d < 10`. -/
def digitChar (d : Nat) : Char := Char.ofNat (48 + d)

/-- The `w` low-order decimal digits of `n`, most significant first. -/
def lowDigits : Nat → Nat → List Char
  | 0, _ => []
  | w + 1, n => digitChar (n / 10 ^ w % 10) :: lowDigits w n

/-- The number of decimal digits of a `uint64` value (`1` for `0`). -/
def decLen (n : Nat) : Nat :=
  max 1 ((List.range 20).filter (fun k => decide (10 ^ k ≤ n))).length

/-- The rendering `fmt.Sprintf("%010d", n)`: decimal, zero-padded to ten
characters, longer when `n` needs more than ten digits. -/
def Sprintf010 (n : Nat) : List Char :=
  if n < 10 ^ 10 then lowDigits 10 n else lowDigits (decLen n) n

/-- The loop of `WalkBlockPrefix` over the remaining characters of
`startString` and `endString`: the characters before the first difference, all
of `startString` when there is none, and `none` when `endString[i]` is out of
range. -/
def prefixLoop : List Char → List Char → Option (List Char)
  | [], _ => some []
  | _ :: _, [] => none
  | a :: as, b :: bs =>
    if a ≠ b then some [] else (prefixLoop as bs).map (fun p => a :: p)

/-- The function `WalkBlockPrefix`. -/
def WalkBlockPrefix (blockRange : BlockRange) (fileBlockSize : Nat) : Option String :=
  match blockRange.Stop with
  | none => some ""
  | some stop =>
    let startString := Sprintf010 (RoundToBundleStartBlock (toUint64 blockRange.Start) fileBlockSize)
    let endString := Sprintf010 (add64 (RoundToBundleEndBlock (sub64 stop 1) fileBlockSize) 1)
    (prefixLoop startString endString).map String.mk

/-! ## `validateBlockSegment` -/

/-- The struct `trackedForkDB`; a nil `*bstream.Block` is `none`. -/
structure trackedForkDB (F : Type) where
  fdb : F
  firstUnlinkableBlock : Option Block
  lastLinkedBlock : Option Block
  unlinkableSegmentCount : Nat

/-- The function `expectedBlockCount`, with the `int(...)` conversion of its
`uint64` result. -/
def expectedBlockCount (firstStreamable : Nat) (segment : String) (fileBlockSize : Nat) : Int :=
  if segment = "0000000000" then toInt64 (sub64 fileBlockSize firstStreamable)
  else toInt64 fileBlockSize

/-- What one pass through the fork-linkability part of the loop body leaves:
the tracker as mutated, the lines printed, and whether the pass ended in a nil
dereference (`tfdb.lastLinkedBlock.Num()` on an unset block). -/
structure LinkResult (F : Type) where
  tfdb : trackedForkDB F
  out : List Line
  panicked : Bool

/-- The fork database as `ReversibleSegment` is asked about `block`: after
`InitLIB(block)` when no LIB was set, and after `AddLink`. -/
def linkedForkDB {F : Type} (db : ForkDB F) (tfdb : trackedForkDB F) (block : Block) : F :=
  db.AddLink (if db.HasLIB tfdb.fdb then tfdb.fdb else db.InitLIB tfdb.fdb block) block

/-- The fork-linkability part of the loop body of `validateBlockSegment`
(from `if !tfdb.fdb.HasLIB()` to the end of the `if revSeg == nil` statement). -/
def linkBlock {F : Type} (db : ForkDB F) (tfdb : trackedForkDB F) (block : Block) :
    LinkResult F :=
  let f := linkedForkDB db tfdb block
  if db.ReversibleSegment f block then
    let f := db.SetLIB f block
    let f := if db.HasLIB f then db.PurgeBeforeLIB f else f
    ⟨{ fdb := f, firstUnlinkableBlock := none, lastLinkedBlock := some block,
       unlinkableSegmentCount := 0 }, [], false⟩
  else
    let count := tfdb.unlinkableSegmentCount + 1
    let first := if tfdb.firstUnlinkableBlock.isNone then some block
      else tfdb.firstUnlinkableBlock
    let t : trackedForkDB F :=
      { fdb := f, firstUnlinkableBlock := first, lastLinkedBlock := tfdb.lastLinkedBlock,
        unlinkableSegmentCount := count }
    if count > 99 ∧ count % 100 = 0 then
      match t.lastLinkedBlock, t.firstUnlinkableBlock with
      | some l, some u =>
        ⟨t, [Line.notLinkable block.Number, Line.largeGap count l.Number u.Number], false⟩
      | _, _ => ⟨t, [Line.notLinkable block.Number], true⟩
    else ⟨t, [Line.notLinkable block.Number], false⟩

/-- The local state of `validateBlockSegment`: its two named results, the
counter `seenBlockCount`, the shared tracker, the lines printed so far and
whether the call ended in a panic. -/
structure SegmentState (F : Type) where
  lowestBlockSeen : Nat
  highestBlockSeen : Nat
  seenBlockCount : Nat
  tfdb : trackedForkDB F
  out : List Line
  panicked : Bool

/-- The `for` loop of `validateBlockSegment` over what the reader still has to
return: the remaining blocks, then `io.EOF` or an error. -/
def readBlocks {F : Type} (env : Env F) (segment : String) (fileBlockSize : Nat)
    (blockRange : BlockRange) (printDetails : PrintDetails) (endsWithError : Bool) :
    List Block → SegmentState F → SegmentState F
  | [], s =>
    if endsWithError then
      { s with out := s.out ++ [Line.readFailed segment s.seenBlockCount] }
    else if (s.seenBlockCount : Int) <
        expectedBlockCount env.GetProtocolFirstStreamableBlock segment fileBlockSize then
      { s with out := s.out ++ [Line.shortSegment segment s.seenBlockCount] }
    else s
  | block :: rest, s =>
    if block.Number < toUint64 blockRange.Start then
      readBlocks env segment fileBlockSize blockRange printDetails endsWithError rest s
    else if blockRange.Stop.any (fun stop => decide (block.Number > stop)) then s
    else
      let lowest := if block.Number < s.lowestBlockSeen then block.Number else s.lowestBlockSeen
      let highest := if block.Number > s.highestBlockSeen then block.Number else s.highestBlockSeen
      let r := linkBlock env.fdb s.tfdb block
      if r.panicked then
        { s with lowestBlockSeen := lowest, highestBlockSeen := highest, tfdb := r.tfdb,
                 out := s.out ++ r.out, panicked := true }
      else
        let out := s.out ++ r.out
        let out := if printDetails = PrintDetails.PrintStats then out ++ [Line.blockPrinter block] else out
        let out := if printDetails = PrintDetails.PrintFull then
            (if env.marshalFails block then out ++ [Line.unableToPrint block]
             else out ++ [Line.fullBlock block])
          else out
        readBlocks env segment fileBlockSize blockRange printDetails endsWithError rest
          { s with lowestBlockSeen := lowest, highestBlockSeen := highest,
                   seenBlockCount := s.seenBlockCount + 1, tfdb := r.tfdb, out := out }

/-- The function `validateBlockSegment`: the tracker `tfdb` goes in and comes
back in the result, next to the two named results and the lines printed. -/
def validateBlockSegment {F : Type} (env : Env F) (store : Store) (segment : String)
    (fileBlockSize : Nat) (blockRange : BlockRange) (printDetails : PrintDetails)
    (tfdb : trackedForkDB F) : SegmentState F :=
  let s : SegmentState F :=
    { lowestBlockSeen := MaxUint64, highestBlockSeen := 0, seenBlockCount := 0, tfdb := tfdb,
      out := [], panicked := false }
  match store.OpenObject segment with
  | Segment.openError => { s with out := [Line.unableToRead segment] }
  | Segment.readerError => { s with out := [Line.unableToRead segment] }
  | Segment.stream blocks endsWithError =>
    readBlocks env segment fileBlockSize blockRange printDetails endsWithError blocks s

/-! ## `CheckMergedBlocks` -/

/-- The first run of ten consecutive decimal digits of a name: the submatch
`match[1]` of `numberRegex.FindStringSubmatch`, `none` when there is no match. -/
def numberRegex : List Char → Option (List Char)
  | [] => none
  | c :: cs =>
    if ((c :: cs).take 10).length = 10 ∧ ((c :: cs).take 10).all Char.isDigit then
      some ((c :: cs).take 10)
    else numberRegex cs

/-- The value of a string of decimal digits. -/
def digitsValue (ds : List Char) : Nat :=
  ds.foldl (fun acc c => 10 * acc + (c.toNat - 48)) 0

/-- The call `strconv.ParseUint(s, 10, 32)` on a string of decimal digits, its
error dropped: a value that does not fit 32 bits comes back as `2^32 - 1`. -/
def ParseUint32 (ds : List Char) : Nat :=
  if digitsValue ds < 2 ^ 32 then digitsValue ds else 2 ^ 32 - 1

/-- What the walk callback returns: `nil`, `dstore.StopIteration`, or it does
not return (panic). -/
inductive Signal where
  | next
  | stop
  | panic
deriving DecidableEq, Repr

/-- The variables of `CheckMergedBlocks` the walk callback closes over, and the
lines printed so far. -/
structure WalkState (F : Type) where
  expected : Nat
  count : Nat
  highestBlockSeen : Nat
  lowestBlockSeen : Nat
  holeFound : Bool
  currentStartBlk : Nat
  tfdb : trackedForkDB F
  out : List Line

/-- The `if baseNum != expected` statement of the walk callback. -/
def reportMismatch {F : Type} (fileBlockSize baseNum : Nat) (s : WalkState F) : WalkState F :=
  if baseNum ≠ s.expected then
    let out := if s.count > 1 then
        s.out ++ [Line.covered (NewClosedRange (toInt64 s.currentStartBlk)
          (RoundToBundleEndBlock (sub64 s.expected fileBlockSize) fileBlockSize))]
      else s.out
    let missingRange := NewClosedRange (toInt64 s.expected)
      (RoundToBundleEndBlock (sub64 baseNum fileBlockSize) fileBlockSize)
    { s with out := out ++ [Line.missing missingRange], currentStartBlk := baseNum,
             holeFound := true }
  else s

/-- The `if count%10000 == 0` statement of the walk callback. -/
def flushProgress {F : Type} (fileBlockSize baseNum : Nat) (s : WalkState F) : WalkState F :=
  if s.count % 10000 = 0 then
    { s with out := s.out ++ [Line.covered (NewClosedRange (toInt64 s.currentStartBlk)
               (RoundToBundleEndBlock baseNum fileBlockSize))],
             currentStartBlk := add64 baseNum fileBlockSize }
  else s

/-- The last statement of the walk callback: whether it returns
`dstore.StopIteration`. -/
def stopSignal (fileBlockSize : Nat) (blockRange : BlockRange) (baseNum : Nat) : Bool :=
  blockRange.Stop.any (fun stop =>
    decide (RoundToBundleEndBlock baseNum fileBlockSize ≥ sub64 stop 1))

/-- The test `baseNum+uint64(fileBlockSize)-1 < uint64(blockRange.Start)` of
the walk callback: the bundle lies before the range and is ignored. -/
def beforeRange (fileBlockSize : Nat) (blockRange : BlockRange) (baseNum : Nat) : Bool :=
  decide (sub64 (add64 baseNum fileBlockSize) 1 < toUint64 blockRange.Start)

/-- The `if readAllBlocks { ... } else { ... }` statement of the walk callback,
which updates `lowestBlockSeen` and `highestBlockSeen`; the flag says that
`validateBlockSegment` ended in a panic. -/
def recordSeen {F : Type} (env : Env F) (store : Store) (fileBlockSize : Nat)
    (blockRange : BlockRange) (printDetails : PrintDetails) (filename : String)
    (baseNum : Nat) (s : WalkState F) : WalkState F × Bool :=
  if printDetails ≠ PrintDetails.PrintNoDetails then
    let r := validateBlockSegment env store filename fileBlockSize blockRange printDetails s.tfdb
    ({ s with
        lowestBlockSeen := if r.lowestBlockSeen < s.lowestBlockSeen then r.lowestBlockSeen
                           else s.lowestBlockSeen,
        highestBlockSeen := if r.highestBlockSeen > s.highestBlockSeen then r.highestBlockSeen
                            else s.highestBlockSeen,
        tfdb := r.tfdb, out := s.out ++ r.out }, r.panicked)
  else
    ({ s with
        lowestBlockSeen := if baseNum < s.lowestBlockSeen then baseNum else s.lowestBlockSeen,
        highestBlockSeen := if add64 baseNum fileBlockSize > s.highestBlockSeen
                            then add64 baseNum fileBlockSize else s.highestBlockSeen }, false)

/-- The walk callback from `count++` on, for a name whose number parsed to
`baseNum`. -/
def visitBundle {F : Type} (env : Env F) (store : Store) (fileBlockSize : Nat)
    (blockRange : BlockRange) (printDetails : PrintDetails)
    (s : WalkState F) (bundle : String × Nat) : WalkState F × Signal :=
  let filename := bundle.1
  let baseNum := bundle.2
  let s := { s with count := s.count + 1 }
  if beforeRange fileBlockSize blockRange baseNum then (s, Signal.next)
  else
    let s := reportMismatch fileBlockSize baseNum s
    let s := { s with expected := add64 baseNum fileBlockSize }
    let seen := recordSeen env store fileBlockSize blockRange printDetails filename baseNum s
    if seen.2 then (seen.1, Signal.panic)
    else
      let s := flushProgress fileBlockSize baseNum seen.1
      (s, if stopSignal fileBlockSize blockRange baseNum then Signal.stop else Signal.next)

/-- The bundle a name stands for: the name with its number as `ParseUint` reads
it, `none` when the name has no run of ten digits. -/
def parseKey (filename : String) : Option (String × Nat) :=
  (numberRegex filename.data).map (fun m => (filename, ParseUint32 m))

/-- The walk callback `func(filename string) error`. -/
def walkFn {F : Type} (env : Env F) (store : Store) (fileBlockSize : Nat)
    (blockRange : BlockRange) (printDetails : PrintDetails)
    (s : WalkState F) (filename : String) : WalkState F × Signal :=
  match parseKey filename with
  | none => (s, Signal.next)
  | some bundle => visitBundle env store fileBlockSize blockRange printDetails s bundle

/-- Modelled from the spec: the walker of a store "supporting a stop iteration
signal" (`Store.Walk` is dstore's, not under `src/`).  The callback is called
on each item in turn until one call does not return `nil`; `WalkOn` leaves the
reaction to the signal to the store. -/
def Walk {σ α : Type} (f : σ → α → σ × Signal) : σ → List α → σ × Signal
  | s, [] => (s, Signal.next)
  | s, k :: ks =>
    match f s k with
    | (s', Signal.next) => Walk f s' ks
    | (s', sig) => (s', sig)

/-- Modelled from the spec: the items the callback is called on during `Walk`,
by a walker that honours the stop signal: all of them up to and including the
first whose call does not return `nil`. -/
def visited {σ α : Type} (f : σ → α → σ × Signal) : σ → List α → List α
  | _, [] => []
  | s, k :: ks =>
    match f s k with
    | (s', Signal.next) => k :: visited f s' ks
    | _ => [k]

/-- The iteration of `Store.Walk` with the walker's reaction to
`dstore.StopIteration` as a parameter: a walker that ends at the signal returns
there; one that does not swallows the signal and goes on with the listing.  A
panic unwinds either walker. -/
def WalkOn {σ α : Type} (endsAtStop : Bool) (f : σ → α → σ × Signal) :
    σ → List α → σ × Signal
  | s, [] => (s, Signal.next)
  | s, k :: ks =>
    match f s k with
    | (s', Signal.next) => WalkOn endsAtStop f s' ks
    | (s', Signal.stop) =>
      if endsAtStop then (s', Signal.stop) else WalkOn endsAtStop f s' ks
    | (s', Signal.panic) => (s', Signal.panic)

/-- The items the callback is called on during `WalkOn`. -/
def visitedOn {σ α : Type} (endsAtStop : Bool) (f : σ → α → σ × Signal) :
    σ → List α → List α
  | _, [] => []
  | s, k :: ks =>
    match f s k with
    | (s', Signal.next) => k :: visitedOn endsAtStop f s' ks
    | (s', Signal.stop) => if endsAtStop then [k] else k :: visitedOn endsAtStop f s' ks
    | (_, Signal.panic) => [k]

/-- The base numbers of the bundles the walk processes: those the callback is
called on and does not ignore as lying before the range. -/
def processedBases {F : Type} (env : Env F) (store : Store) (fileBlockSize : Nat)
    (blockRange : BlockRange) (printDetails : PrintDetails) (s : WalkState F)
    (bundles : List (String × Nat)) : List Nat :=
  ((visited (visitBundle env store fileBlockSize blockRange printDetails) s bundles).map
    Prod.snd).filter (fun b => !beforeRange fileBlockSize blockRange b)

/-- The base numbers of the bundles processed when the walk is the store's own:
those its walker calls the callback on and the callback does not ignore as
lying before the range. -/
def processedBasesOn {F : Type} (env : Env F) (store : Store) (fileBlockSize : Nat)
    (blockRange : BlockRange) (printDetails : PrintDetails) (s : WalkState F)
    (bundles : List (String × Nat)) : List Nat :=
  ((visitedOn store.endsAtStop
      (visitBundle env store fileBlockSize blockRange printDetails) s bundles).map
    Prod.snd).filter (fun b => !beforeRange fileBlockSize blockRange b)

/-- How a call of `CheckMergedBlocks` ends. -/
inductive Result where
  /-- `return nil`. -/
  | ok
  /-- `check merged blocks can only work with fully resolved range`. -/
  | unresolvedRange
  /-- The error of `dstore.NewDBinStore`. -/
  | storeError
  /-- The error of `blocksStore.Walk`. -/
  | walkError
  /-- A runtime panic. -/
  | panic
deriving DecidableEq, Repr

/-- The lines a call of `CheckMergedBlocks` printed and how it ended. -/
structure Report where
  out : List Line
  result : Result
deriving DecidableEq, Repr

/-- The variables of `CheckMergedBlocks` as they stand when the walk starts. -/
def initState {F : Type} (env : Env F) (storeURL : String) (fileBlockSize : Nat)
    (blockRange : BlockRange) (printDetails : PrintDetails) : WalkState F :=
  { expected := RoundToBundleStartBlock (toUint64 blockRange.Start) fileBlockSize
    count := 0
    highestBlockSeen := 0
    lowestBlockSeen := MaxUint64
    holeFound := false
    currentStartBlk := toUint64 blockRange.Start
    tfdb := { fdb := env.fdb.NewForkDB, firstUnlinkableBlock := none, lastLinkedBlock := none,
              unlinkableSegmentCount := 0 }
    out := [Line.checking storeURL] ++
      (if printDetails ≠ PrintDetails.PrintNoDetails then [Line.detailed] else []) }

/-- The last covered or fork-issue line, printed once the walk has returned. -/
def trailingLine {F : Type} (s : WalkState F) : Line :=
  match s.tfdb.lastLinkedBlock with
  | some b =>
    if b.Number < s.highestBlockSeen then
      Line.forkIssue (NewClosedRange (toInt64 s.currentStartBlk) s.highestBlockSeen) b.Number
    else Line.covered (NewClosedRange (toInt64 s.currentStartBlk) s.highestBlockSeen)
  | none => Line.covered (NewClosedRange (toInt64 s.currentStartBlk) s.highestBlockSeen)

/-- The condition of the incomplete-range warning. -/
def incompleteRange (firstStreamable : Nat) (blockRange : BlockRange)
    (lowestBlockSeen highestBlockSeen : Nat) : Bool :=
  blockRange.Stop.any (fun stop =>
    decide (highestBlockSeen < sub64 stop 1) ||
      (decide (lowestBlockSeen > toUint64 blockRange.Start) &&
        decide (lowestBlockSeen > firstStreamable)))

/-- The part of `CheckMergedBlocks` after the walk has returned without error:
the trailing range line and the summary. -/
def finish {F : Type} (env : Env F) (blockRange : BlockRange) (s : WalkState F) : List Line :=
  s.out ++ [trailingLine s, Line.blank, Line.summary] ++
    (if incompleteRange env.GetProtocolFirstStreamableBlock blockRange s.lowestBlockSeen
        s.highestBlockSeen then
      [Line.incomplete blockRange s.lowestBlockSeen s.highestBlockSeen] else []) ++
    [if s.holeFound then Line.holesFound else Line.noHoleFound]

/-- Whether a name starts with the walk prefix. -/
def hasPrefix (walkPrefix filename : String) : Bool :=
  walkPrefix.data.isPrefixOf filename.data

/-- The function `CheckMergedBlocks`.  The store hands the callback the names
that start with the walk prefix, in listing order, and reacts to the stop
signal as its walker does. -/
def CheckMergedBlocks {F : Type} (env : Env F) (storeURL : String) (fileBlockSize : Nat)
    (blockRange : BlockRange) (printDetails : PrintDetails) : Report :=
  let s0 : WalkState F := initState env storeURL fileBlockSize blockRange printDetails
  if !blockRange.IsResolved then ⟨s0.out, Result.unresolvedRange⟩
  else
    match env.NewDBinStore storeURL with
    | none => ⟨s0.out, Result.storeError⟩
    | some blocksStore =>
      match WalkBlockPrefix blockRange fileBlockSize with
      | none => ⟨s0.out, Result.panic⟩
      | some walkPrefix =>
        match WalkOn blocksStore.endsAtStop
            (walkFn env blocksStore fileBlockSize blockRange printDetails) s0
            (blocksStore.keys.filter (hasPrefix walkPrefix)) with
        | (s, Signal.panic) => ⟨s.out, Result.panic⟩
        | (s, Signal.stop) => ⟨finish env blockRange s, Result.ok⟩
        | (s, Signal.next) =>
          if blocksStore.listFails then ⟨s.out, Result.walkError⟩
          else ⟨finish env blockRange s, Result.ok⟩

/-! ## A listing-only store for the worked examples -/

/-- A fork database that is never consulted (listing-only runs). -/
def idleForkDB : ForkDB Unit :=
  { NewForkDB := (), HasLIB := fun _ => false, InitLIB := fun _ _ => (),
    AddLink := fun _ _ => (), ReversibleSegment := fun _ _ => false,
    SetLIB := fun _ _ => (), PurgeBeforeLIB := fun _ => () }

/-- A store that lists exactly `keys`, with empty objects; its walker ends at
the stop signal. -/
def listingStore (keys : List String) : Store :=
  ⟨keys, fun _ => Segment.stream [] false, false, true⟩

/-- An environment whose store is `listingStore keys`. -/
def listingEnv (keys : List String) : Env Unit :=
  { fdb := idleForkDB
    NewDBinStore := fun _ => some (listingStore keys)
    GetProtocolFirstStreamableBlock := 0
    marshalFails := fun _ => false }

/-- The tracker after the blocks of a run have gone through `linkBlock` one
after the other. -/
def linkAll {F : Type} (db : ForkDB F) : trackedForkDB F → List Block → trackedForkDB F
  | t, [] => t
  | t, b :: bs => linkAll db (linkBlock db t b).tfdb bs

/-- A fork database in which every block resolves. -/
def linkingForkDB : ForkDB Unit :=
  { NewForkDB := (), HasLIB := fun _ => true, InitLIB := fun _ _ => (),
    AddLink := fun _ _ => (), ReversibleSegment := fun _ _ => true,
    SetLIB := fun _ _ => (), PurgeBeforeLIB := fun _ => () }

/-- A block with the given number. -/
def blockAt (n : Nat) : Block := ⟨n, "", "", 0⟩

/-- An environment for deep validation: the store lists `keys`, the object of
the bundle named by base `b` decodes to its first and its last block (`b` and
`b + 99`), and every block resolves. -/
def decodingEnv (keys : List String) : Env Unit :=
  { fdb := linkingForkDB
    NewDBinStore := fun _ => some
      ⟨keys, fun k => Segment.stream
        [blockAt (digitsValue k.data), blockAt (digitsValue k.data + 99)] false, false, true⟩
    GetProtocolFirstStreamableBlock := 0
    marshalFails := fun _ => false }

/-- Whether a line reports a block range of the walk: covered, missing or with
fork issues. -/
def Line.isRange : Line → Bool
  | Line.covered _ => true
  | Line.missing _ => true
  | Line.forkIssue _ _ => true
  | _ => false

/-- The variables of `CheckMergedBlocks` when the walk over `bundles` has
returned. -/
def walkEnd {F : Type} (env : Env F) (store : Store) (storeURL : String)
    (fileBlockSize : Nat) (blockRange : BlockRange) (printDetails : PrintDetails)
    (bundles : List (String × Nat)) : WalkState F :=
  (Walk (visitBundle env store fileBlockSize blockRange printDetails)
    (initState env storeURL fileBlockSize blockRange printDetails) bundles).1

/-- A store whose every object decodes to `blocks` followed by `io.EOF`. -/
def streamStore (blocks : List Block) : Store :=
  ⟨[], fun _ => Segment.stream blocks false, false, true⟩

/-- The blocks of a stream that the loop of `validateBlockSegment` hands to the
fork tracker: those not below the start of the range, up to the first block
above its stop. -/
def trackedBlocks (blockRange : BlockRange) : List Block → List Block
  | [] => []
  | block :: rest =>
    if block.Number < toUint64 blockRange.Start then trackedBlocks blockRange rest
    else if blockRange.Stop.any (fun stop => decide (block.Number > stop)) then []
    else block :: trackedBlocks blockRange rest

/-- The tracker `CheckMergedBlocks` creates before the walk. -/
def newTracker {F : Type} (db : ForkDB F) : trackedForkDB F :=
  { fdb := db.NewForkDB, firstUnlinkableBlock := none, lastLinkedBlock := none,
    unlinkableSegmentCount := 0 }

/-- The variables of the walk callback just before its `if count%10000 == 0`
statement, for a bundle that is not ignored. -/
def preFlush {F : Type} (env : Env F) (store : Store) (fileBlockSize : Nat)
    (blockRange : BlockRange) (printDetails : PrintDetails) (s : WalkState F)
    (bundle : String × Nat) : WalkState F :=
  (recordSeen env store fileBlockSize blockRange printDetails bundle.1 bundle.2
    { reportMismatch fileBlockSize bundle.2 { s with count := s.count + 1 } with
      expected := add64 bundle.2 fileBlockSize }).1

/-- The bundles `first, first + size, ...`, `n` of them, each under its
ten-digit name. -/
def gapFreeBundles (first size n : Nat) : List (String × Nat) :=
  (List.range n).map (fun i => (String.mk (Sprintf010 (first + i * size)), first + i * size))

/-- A store that lists exactly `keys`, with empty objects, and whose walker goes
on with the listing after the stop signal. -/
def lingeringStore (keys : List String) : Store :=
  ⟨keys, fun _ => Segment.stream [] false, false, false⟩

/-- An environment whose store is `lingeringStore keys`. -/
def lingeringEnv (keys : List String) : Env Unit :=
  { fdb := idleForkDB
    NewDBinStore := fun _ => some (lingeringStore keys)
    GetProtocolFirstStreamableBlock := 0
    marshalFails := fun _ => false }

end Tools

namespace Firecore

/-! ## `PrintOutputMode` -/

/-- The integer type `PrintOutputMode` of the generated enum. -/
structure PrintOutputMode where
  val : Nat
deriving DecidableEq, Repr

/-- The constant `PrintOutputModeText`, `iota` at 0. -/
def PrintOutputModeText : PrintOutputMode := ⟨0⟩

/-- The constant `PrintOutputModeJSON`, `iota` at 1. -/
def PrintOutputModeJSON : PrintOutputMode := ⟨1⟩

/-- The slice `s[i:j]` of a string of one-byte characters. -/
def slice (s : String) (i j : Nat) : String := String.mk ((s.data.drop i).take (j - i))

/-- The constant `_PrintOutputModeName`. -/
def _PrintOutputModeName : String := "TextJSON"

/-- The variable `_PrintOutputModeNames`. -/
def _PrintOutputModeNames : List String :=
  [slice _PrintOutputModeName 0 4, slice _PrintOutputModeName 4 8]

/-- The map `_PrintOutputModeMap`, as a lookup. -/
def _PrintOutputModeMap (x : PrintOutputMode) : Option String :=
  if x = PrintOutputModeText then some (slice _PrintOutputModeName 0 4)
  else if x = PrintOutputModeJSON then some (slice _PrintOutputModeName 4 8)
  else none

/-- The method `String` of `PrintOutputMode`. -/
def PrintOutputMode.String (x : PrintOutputMode) : String :=
  match _PrintOutputModeMap x with
  | some str => str
  | none => "PrintOutputMode(" ++ Nat.repr x.val ++ ")"

/-- The library function `strings.ToLower` on a string of valid characters: every
character goes through the rune mapping (`unicode.ToLower`), which is a
parameter. -/
def ToLower (lowerRune : Char → Char) (s : String) : String :=
  String.mk (s.data.map lowerRune)

/-- The map `_PrintOutputModeValue`, as a lookup.  Two of its keys are computed
with `strings.ToLower`; of two entries with the same key the later one of the
literal stands. -/
def _PrintOutputModeValue (lowerRune : Char → Char) (name : String) :
    Option PrintOutputMode :=
  if name = ToLower lowerRune (slice _PrintOutputModeName 4 8) then some PrintOutputModeJSON
  else if name = slice _PrintOutputModeName 4 8 then some PrintOutputModeJSON
  else if name = ToLower lowerRune (slice _PrintOutputModeName 0 4) then
    some PrintOutputModeText
  else if name = slice _PrintOutputModeName 0 4 then some PrintOutputModeText
  else none

/-- The function `ParsePrintOutputMode`: the value and the error (`none` for
`nil`, else its message). -/
def ParsePrintOutputMode (lowerRune : Char → Char) (name : String) :
    PrintOutputMode × Option String :=
  match _PrintOutputModeValue lowerRune name with
  | some x => (x, none)
  | none =>
    match _PrintOutputModeValue lowerRune (ToLower lowerRune name) with
    | some x => (x, none)
    | none =>
      (⟨0⟩, some (name ++ " is not a valid PrintOutputMode, try [" ++
        ", ".intercalate _PrintOutputModeNames ++ "]"))

/-- The rune mapping of `strings.ToLower` on one-byte characters: `'A'` to `'Z'`
move up by `'a' - 'A'`, every other character stays. -/
def asciiLowerRune (c : Char) : Char :=
  if 65 ≤ c.toNat ∧ c.toNat ≤ 90 then Char.ofNat (c.toNat + 32) else c

end Firecore

namespace Tools

/-! ## Arithmetic and rendering lemmas -/

theorem add64_eq {a b : Nat} (h : a + b < 2 ^ 64) : add64 a b = a + b := by
  unfold add64; exact Nat.mod_eq_of_lt h

theorem sub64_eq {a b : Nat} (ha : a < 2 ^ 64) (hb : b ≤ a) : sub64 a b = a - b := by
  unfold sub64
  have hb' : b < 2 ^ 64 := lt_of_le_of_lt hb ha
  rw [Nat.mod_eq_of_lt ha, Nat.mod_eq_of_lt hb']
  have : a + (2 ^ 64 - b) = (a - b) + 2 ^ 64 := by omega
  rw [this, Nat.add_mod_right]
  exact Nat.mod_eq_of_lt (by omega)

theorem RoundToBundleStartBlock_le (n fbs : Nat) : RoundToBundleStartBlock n fbs ≤ n := by
  unfold RoundToBundleStartBlock; omega

theorem RoundToBundleStartBlock_dvd (n fbs : Nat) : fbs ∣ RoundToBundleStartBlock n fbs := by
  unfold RoundToBundleStartBlock
  exact Nat.dvd_sub_mod n

theorem digitChar_toNat {d : Nat} (h : d < 10) : (digitChar d).toNat = 48 + d := by
  interval_cases d <;> rfl

theorem digitChar_inj {d e : Nat} (hd : d < 10) (he : e < 10) (h : digitChar d = digitChar e) :
    d = e := by
  have := congrArg Char.toNat h
  rw [digitChar_toNat hd, digitChar_toNat he] at this
  omega

theorem lowDigits_length (w n : Nat) : (lowDigits w n).length = w := by
  induction w with
  | zero => rfl
  | succ w ih => simp [lowDigits, ih]

theorem prefixLoop_isSome : ∀ (as bs : List Char), as.length ≤ bs.length →
    ∃ p, prefixLoop as bs = some p
  | [], _, _ => ⟨[], rfl⟩
  | _ :: _, [], h => by simp at h
  | a :: as, b :: bs, h => by
    obtain ⟨p, hp⟩ := prefixLoop_isSome as bs (by simpa using h)
    by_cases hab : a = b
    · exact ⟨a :: p, by simp [prefixLoop, hab, hp]⟩
    · exact ⟨[], by simp [prefixLoop, hab]⟩

theorem lowDigits_squeeze : ∀ (w x y z : Nat) (p : List Char), x ≤ y → y ≤ z →
    x / 10 ^ w = z / 10 ^ w → prefixLoop (lowDigits w x) (lowDigits w z) = some p →
    p <+: lowDigits w y
  | 0, _, _, _, p, _, _, _, h => by
    simp [lowDigits, prefixLoop] at h
    subst h
    exact List.nil_prefix
  | w + 1, x, y, z, p, hxy, hyz, hq, h => by
    by_cases hd : digitChar (x / 10 ^ w % 10) = digitChar (z / 10 ^ w % 10)
    · have hdig : x / 10 ^ w % 10 = z / 10 ^ w % 10 :=
        digitChar_inj (Nat.mod_lt _ (by norm_num)) (Nat.mod_lt _ (by norm_num)) hd
      have hq' : x / 10 ^ w / 10 = z / 10 ^ w / 10 := by
        rw [Nat.div_div_eq_div_mul, Nat.div_div_eq_div_mul, ← pow_succ]; exact hq
      have hxz : x / 10 ^ w = z / 10 ^ w := by
        have e1 := Nat.div_add_mod (x / 10 ^ w) 10
        have e2 := Nat.div_add_mod (z / 10 ^ w) 10
        omega
      have hxy' : x / 10 ^ w ≤ y / 10 ^ w := Nat.div_le_div_right hxy
      have hyz' : y / 10 ^ w ≤ z / 10 ^ w := Nat.div_le_div_right hyz
      have hy : y / 10 ^ w = x / 10 ^ w := by omega
      simp only [lowDigits, prefixLoop, ne_eq, hd, not_true_eq_false, if_false,
        Option.map_eq_some'] at h
      obtain ⟨q, hq2, rfl⟩ := h
      have ih := lowDigits_squeeze w x y z q hxy hyz hxz hq2
      simp only [lowDigits, hy]
      rw [← hd]
      exact (List.prefix_cons_inj _).mpr ih
    · simp only [lowDigits, prefixLoop, ne_eq, hd, not_false_eq_true, if_true,
        Option.some.injEq] at h
      subst h
      exact List.nil_prefix

theorem Sprintf010_of_lt {n : Nat} (h : n < 10 ^ 10) : Sprintf010 n = lowDigits 10 n := by
  unfold Sprintf010; rw [if_pos h]

theorem RoundToBundleEndBlock_eq {n fbs : Nat} (hsize : 0 < fbs) (hfbs : fbs < 2 ^ 64)
    (h : RoundToBundleStartBlock n fbs + fbs ≤ 2 ^ 64) :
    RoundToBundleEndBlock n fbs = RoundToBundleStartBlock n fbs + fbs - 1 := by
  unfold RoundToBundleEndBlock
  unfold RoundToBundleStartBlock at h ⊢
  rw [sub64_eq (by omega) hsize, add64_eq (by omega)]
  omega

theorem lt_RoundToBundleStartBlock_add {n fbs : Nat} (hsize : 0 < fbs) :
    n < RoundToBundleStartBlock n fbs + fbs := by
  unfold RoundToBundleStartBlock
  have := Nat.mod_lt n hsize
  have := Nat.mod_le n fbs
  omega

/-- Claim C4. `WalkBlockPrefix` never prunes an in-range bundle: when
`roundToBundleEnd(stop-1)+1` (the number itself, before any 64-bit wrap-around)
is below `10^10`, the ten-digit key of every base `b` between
`roundToBundleStart(start)` and `roundToBundleStart(stop-1)` starts with the
prefix returned for the closed range; for an open range the prefix is empty and
every key starts with it. -/
theorem WalkBlockPrefix_keeps_in_range_bundles (fileBlockSize : Nat) (start : Int)
    (stop b : Nat) (hsize : 0 < fileBlockSize) (hstop : 0 < stop)
    (hend : RoundToBundleStartBlock (stop - 1) fileBlockSize + fileBlockSize - 1 + 1 < 10 ^ 10)
    (hdvd : fileBlockSize ∣ b)
    (hlo : RoundToBundleStartBlock (toUint64 start) fileBlockSize ≤ b)
    (hhi : b ≤ RoundToBundleStartBlock (stop - 1) fileBlockSize) :
    (∃ p, WalkBlockPrefix ⟨start, some stop⟩ fileBlockSize = some p ∧
        hasPrefix p (String.mk (Sprintf010 b)) = true) ∧
      WalkBlockPrefix ⟨start, none⟩ fileBlockSize = some "" ∧
      ∀ key : String, hasPrefix "" key = true := by
  have _ := hdvd
  have hlt := lt_RoundToBundleStartBlock_add (n := stop - 1) hsize
  have hElt : RoundToBundleStartBlock (stop - 1) fileBlockSize + fileBlockSize < 10 ^ 10 := by
    omega
  have hsub : sub64 stop 1 = stop - 1 := sub64_eq (by omega) hstop
  have hE : RoundToBundleEndBlock (sub64 stop 1) fileBlockSize
      = RoundToBundleStartBlock (stop - 1) fileBlockSize + fileBlockSize - 1 := by
    rw [hsub]
    exact RoundToBundleEndBlock_eq hsize (by omega) (by omega)
  have hE1 : add64 (RoundToBundleEndBlock (sub64 stop 1) fileBlockSize) 1
      = RoundToBundleStartBlock (stop - 1) fileBlockSize + fileBlockSize := by
    have h64 : RoundToBundleStartBlock (stop - 1) fileBlockSize + fileBlockSize - 1 + 1
        < 2 ^ 64 := lt_trans hend (by norm_num)
    rw [hE, add64_eq h64]
    omega
  refine ⟨?_, rfl, fun key => by simp [hasPrefix]⟩
  have hSlt : RoundToBundleStartBlock (toUint64 start) fileBlockSize < 10 ^ 10 := by omega
  obtain ⟨p, hp⟩ := prefixLoop_isSome
    (lowDigits 10 (RoundToBundleStartBlock (toUint64 start) fileBlockSize))
    (lowDigits 10 (RoundToBundleStartBlock (stop - 1) fileBlockSize + fileBlockSize))
    (by simp [lowDigits_length])
  refine ⟨String.mk p, ?_, ?_⟩
  · simp only [WalkBlockPrefix, hE1, Sprintf010_of_lt hSlt, Sprintf010_of_lt hElt, hp,
      Option.map_some']
  · have hb : b < 10 ^ 10 := by omega
    rw [hasPrefix, Sprintf010_of_lt hb, List.isPrefixOf_iff_prefix]
    refine lowDigits_squeeze 10 _ b _ p hlo (by omega) ?_ hp
    rw [Nat.div_eq_of_lt hSlt, Nat.div_eq_of_lt hElt]

/-- Witness for claim C4: range `[1000, 2000)`, bundles of 100, base 1500. -/
theorem WalkBlockPrefix_keeps_in_range_bundles_witness :
    (∃ p, WalkBlockPrefix ⟨1000, some 2000⟩ 100 = some p ∧
        hasPrefix p (String.mk (Sprintf010 1500)) = true) ∧
      WalkBlockPrefix ⟨1000, none⟩ 100 = some "" ∧
      ∀ key : String, hasPrefix "" key = true :=
  WalkBlockPrefix_keeps_in_range_bundles 100 1000 2000 1500 (by decide) (by decide)
    (by decide) (by decide) (by decide) (by decide)

/-- Counterexample to claim C7 as stated: for `[1000, 2000)` with bundles of 100
the prefix is not `"00000"`, and for `[100, 200)` it is not `"000000"`. -/
theorem WalkBlockPrefix_examples_not_as_stated :
    WalkBlockPrefix ⟨1000, some 2000⟩ 100 ≠ some "00000" ∧
      WalkBlockPrefix ⟨100, some 200⟩ 100 ≠ some "000000" := by
  decide

/-- Claim C7, amended. With bundles of 100, the padded bounds of `[1000, 2000)`
are `"0000001000"` and `"0000002000"` and the prefix is `"000000"` (six zeros);
those of `[100, 200)` are `"0000000100"` and `"0000000200"` and the prefix is
`"0000000"` (seven zeros). -/
theorem WalkBlockPrefix_examples :
    Sprintf010 (RoundToBundleStartBlock (toUint64 1000) 100) = "0000001000".data ∧
      Sprintf010 (add64 (RoundToBundleEndBlock (sub64 2000 1) 100) 1) = "0000002000".data ∧
      WalkBlockPrefix ⟨1000, some 2000⟩ 100 = some "000000" ∧
      Sprintf010 (RoundToBundleStartBlock (toUint64 100) 100) = "0000000100".data ∧
      Sprintf010 (add64 (RoundToBundleEndBlock (sub64 200 1) 100) 1) = "0000000200".data ∧
      WalkBlockPrefix ⟨100, some 200⟩ 100 = some "0000000" := by
  decide

theorem linkBlock_tfdb {F : Type} (db : ForkDB F) (tfdb : trackedForkDB F) (block : Block) :
    (linkBlock db tfdb block).tfdb =
      if db.ReversibleSegment (linkedForkDB db tfdb block) block then
        { fdb := if db.HasLIB (db.SetLIB (linkedForkDB db tfdb block) block) then
              db.PurgeBeforeLIB (db.SetLIB (linkedForkDB db tfdb block) block)
            else db.SetLIB (linkedForkDB db tfdb block) block
          firstUnlinkableBlock := none
          lastLinkedBlock := some block
          unlinkableSegmentCount := 0 }
      else
        { fdb := linkedForkDB db tfdb block
          firstUnlinkableBlock := if tfdb.firstUnlinkableBlock.isNone then some block
            else tfdb.firstUnlinkableBlock
          lastLinkedBlock := tfdb.lastLinkedBlock
          unlinkableSegmentCount := tfdb.unlinkableSegmentCount + 1 } := by
  unfold linkBlock
  by_cases h : db.ReversibleSegment (linkedForkDB db tfdb block) block = true
  · simp only [h, if_true]
  · simp only [h, if_false, Bool.false_eq_true]
    split_ifs <;> first | rfl | (split <;> rfl)

theorem readBlocks_single_tfdb {F : Type} (env : Env F) (segment : String)
    (fileBlockSize : Nat) (blockRange : BlockRange) (printDetails : PrintDetails)
    (endsWithError : Bool) (s : SegmentState F) (block : Block)
    (h1 : ¬ block.Number < toUint64 blockRange.Start)
    (h2 : blockRange.Stop.any (fun stop => decide (block.Number > stop)) = false) :
    (readBlocks env segment fileBlockSize blockRange printDetails endsWithError [block] s).tfdb
      = (linkBlock env.fdb s.tfdb block).tfdb := by
  simp only [readBlocks, h1, h2, if_false, Bool.false_eq_true]
  by_cases hp : (linkBlock env.fdb s.tfdb block).panicked = true
  · simp only [hp, if_true]
  · simp only [hp, if_false, Bool.false_eq_true]
    split_ifs <;> rfl

/-- Claim C9. The fork-linkability step of `validateBlockSegment`. If the block
is unresolvable the count grows by exactly one, `firstUnlinkableBlock` becomes
the block when it was unset and is unchanged otherwise, and `lastLinkedBlock`
is unchanged; if the block resolves, `lastLinkedBlock` becomes the block, the
count becomes 0 and `firstUnlinkableBlock` becomes unset.  The loop applies the
step to every in-range block.  Hence a run of unresolvable blocks yields the
counts `c+1, c+2, ...` and a resolving block after it yields 0. -/
theorem linkBlock_linkability_step {F : Type} (db : ForkDB F) (tfdb : trackedForkDB F)
    (block : Block) :
    (db.ReversibleSegment (linkedForkDB db tfdb block) block = false →
      (linkBlock db tfdb block).tfdb.unlinkableSegmentCount = tfdb.unlinkableSegmentCount + 1 ∧
      (tfdb.firstUnlinkableBlock = none →
        (linkBlock db tfdb block).tfdb.firstUnlinkableBlock = some block) ∧
      (tfdb.firstUnlinkableBlock ≠ none →
        (linkBlock db tfdb block).tfdb.firstUnlinkableBlock = tfdb.firstUnlinkableBlock) ∧
      (linkBlock db tfdb block).tfdb.lastLinkedBlock = tfdb.lastLinkedBlock) ∧
    (db.ReversibleSegment (linkedForkDB db tfdb block) block = true →
      (linkBlock db tfdb block).tfdb.lastLinkedBlock = some block ∧
      (linkBlock db tfdb block).tfdb.unlinkableSegmentCount = 0 ∧
      (linkBlock db tfdb block).tfdb.firstUnlinkableBlock = none) ∧
    (∀ (env : Env F) (segment : String) (fileBlockSize : Nat) (blockRange : BlockRange)
        (printDetails : PrintDetails) (endsWithError : Bool) (s : SegmentState F),
      ¬ block.Number < toUint64 blockRange.Start →
      blockRange.Stop.any (fun stop => decide (block.Number > stop)) = false →
      (readBlocks env segment fileBlockSize blockRange printDetails endsWithError [block] s).tfdb
        = (linkBlock env.fdb s.tfdb block).tfdb) ∧
    (∀ run : List Block, (∀ g, ∀ b ∈ run, db.ReversibleSegment g b = false) →
      (linkAll db tfdb run).unlinkableSegmentCount = tfdb.unlinkableSegmentCount + run.length) ∧
    (∀ (run : List Block) (next : Block), (∀ g, db.ReversibleSegment g next = true) →
      (linkBlock db (linkAll db tfdb run) next).tfdb.unlinkableSegmentCount = 0) := by
  refine ⟨?_, ?_, ?_, ?_, ?_⟩
  · intro h
    rw [linkBlock_tfdb, h]
    refine ⟨rfl, ?_, ?_, rfl⟩
    · intro hnone
      simp [hnone]
    · intro hsome
      cases hf : tfdb.firstUnlinkableBlock with
      | none => exact absurd hf hsome
      | some b => simp
  · intro h
    rw [linkBlock_tfdb, h]
    exact ⟨rfl, rfl, rfl⟩
  · intro env segment fileBlockSize blockRange printDetails endsWithError s h1 h2
    exact readBlocks_single_tfdb env segment fileBlockSize blockRange printDetails
      endsWithError s block h1 h2
  · intro run
    induction run generalizing tfdb with
    | nil => intro _; rfl
    | cons b bs ih =>
      intro hrun
      have hstep : (linkBlock db tfdb b).tfdb.unlinkableSegmentCount
          = tfdb.unlinkableSegmentCount + 1 := by
        rw [linkBlock_tfdb, hrun _ b (List.mem_cons_self _ _)]
        rfl
      simp only [linkAll, List.length_cons]
      rw [ih (linkBlock db tfdb b).tfdb (fun g x hx => hrun g x (List.mem_cons_of_mem _ hx)),
        hstep]
      omega
  · intro run next h
    rw [linkBlock_tfdb, h]
    rfl

/-- Witness for claim C9: with a fork database that resolves nothing, three
blocks in a row take the count from 0 to 3. -/
theorem linkBlock_linkability_step_witness :
    (linkAll idleForkDB ⟨(), none, none, 0⟩
      [blockAt 5, blockAt 6, blockAt 7]).unlinkableSegmentCount = 0 + 3 :=
  (linkBlock_linkability_step idleForkDB ⟨(), none, none, 0⟩ (blockAt 5)).2.2.2.1
    [blockAt 5, blockAt 6, blockAt 7] (fun _ _ _ => rfl)

section walk

variable {F : Type} (env : Env F) (store : Store) (fileBlockSize : Nat)
  (blockRange : BlockRange) (printDetails : PrintDetails)

theorem visitBundle_before (s : WalkState F) (bundle : String × Nat)
    (h : beforeRange fileBlockSize blockRange bundle.2 = true) :
    visitBundle env store fileBlockSize blockRange printDetails s bundle
      = ({ s with count := s.count + 1 }, Signal.next) := by
  unfold visitBundle
  simp only [h, if_true]

theorem reportMismatch_expected (b : Nat) (s : WalkState F) :
    (reportMismatch fileBlockSize b s).expected = s.expected := by
  unfold reportMismatch; split_ifs <;> rfl

theorem reportMismatch_count (b : Nat) (s : WalkState F) :
    (reportMismatch fileBlockSize b s).count = s.count := by
  unfold reportMismatch; split_ifs <;> rfl

theorem reportMismatch_holeFound (b : Nat) (s : WalkState F) :
    (reportMismatch fileBlockSize b s).holeFound = (s.holeFound || decide (b ≠ s.expected)) := by
  unfold reportMismatch; split_ifs with h1 h2 <;> simp_all

theorem flushProgress_expected (b : Nat) (s : WalkState F) :
    (flushProgress fileBlockSize b s).expected = s.expected := by
  unfold flushProgress; split_ifs <;> rfl

theorem flushProgress_count (b : Nat) (s : WalkState F) :
    (flushProgress fileBlockSize b s).count = s.count := by
  unfold flushProgress; split_ifs <;> rfl

theorem flushProgress_holeFound (b : Nat) (s : WalkState F) :
    (flushProgress fileBlockSize b s).holeFound = s.holeFound := by
  unfold flushProgress; split_ifs <;> rfl

theorem recordSeen_track (filename : String) (b : Nat) (s : WalkState F) :
    (recordSeen env store fileBlockSize blockRange printDetails filename b s).1.expected
        = s.expected ∧
      (recordSeen env store fileBlockSize blockRange printDetails filename b s).1.holeFound
        = s.holeFound ∧
      (recordSeen env store fileBlockSize blockRange printDetails filename b s).1.count
        = s.count ∧
      (recordSeen env store fileBlockSize blockRange printDetails filename b s).1.currentStartBlk
        = s.currentStartBlk := by
  unfold recordSeen
  split_ifs <;> exact ⟨rfl, rfl, rfl, rfl⟩

/-- What a processed bundle leaves in the hole-tracking variables. -/
theorem visitBundle_processed (s : WalkState F) (bundle : String × Nat)
    (h : beforeRange fileBlockSize blockRange bundle.2 = false) :
    (visitBundle env store fileBlockSize blockRange printDetails s bundle).1.expected
        = add64 bundle.2 fileBlockSize ∧
      (visitBundle env store fileBlockSize blockRange printDetails s bundle).1.holeFound
        = (s.holeFound || decide (bundle.2 ≠ s.expected)) ∧
      (visitBundle env store fileBlockSize blockRange printDetails s bundle).1.count
        = s.count + 1 := by
  unfold visitBundle
  simp only [h, Bool.false_eq_true, if_false]
  split_ifs <;>
    simp only [flushProgress_expected, flushProgress_holeFound, flushProgress_count,
      recordSeen_track, reportMismatch_holeFound, reportMismatch_count, and_self]

end walk

theorem base_add_lt {fbs b : Nat} (hfbs : fbs < 2 ^ 64) (hdvd : fbs ∣ b) (hb : b < 2 ^ 32) :
    b + fbs < 2 ^ 64 := by
  rcases Nat.eq_zero_or_pos b with h0 | hpos
  · subst h0; simpa using hfbs
  · have := Nat.le_of_dvd hpos hdvd
    have h32 : (2 : Nat) ^ 32 + 2 ^ 32 < 2 ^ 64 := by norm_num
    omega

theorem dvd_add_le_of_lt {fbs a b : Nat} (ha : fbs ∣ a) (hb : fbs ∣ b) (h : a < b) :
    a + fbs ≤ b := by
  obtain ⟨i, rfl⟩ := ha
  obtain ⟨j, rfl⟩ := hb
  have hpos : 0 < fbs := by
    rcases Nat.eq_zero_or_pos fbs with h0 | hp
    · subst h0; simp at h
    · exact hp
  have hij : i < j := lt_of_mul_lt_mul_left h (Nat.zero_le _)
  calc fbs * i + fbs = fbs * (i + 1) := by ring
    _ ≤ fbs * j := Nat.mul_le_mul_left _ hij

theorem le_RoundToBundleStartBlock {fbs m n : Nat} (hsize : 0 < fbs) (hm : fbs ∣ m)
    (h : m ≤ n) : m ≤ RoundToBundleStartBlock n fbs := by
  obtain ⟨i, rfl⟩ := hm
  have hi : i ≤ n / fbs := (Nat.le_div_iff_mul_le hsize).mpr (by rw [Nat.mul_comm]; exact h)
  have hn := Nat.div_add_mod n fbs
  have : fbs * i ≤ fbs * (n / fbs) := Nat.mul_le_mul_left _ hi
  unfold RoundToBundleStartBlock
  omega

theorem beforeRange_iff {fbs b : Nat} (blockRange : BlockRange) (hsize : 0 < fbs)
    (hfbs : fbs < 2 ^ 64) (hdvd : fbs ∣ b) (hb : b < 2 ^ 32) :
    beforeRange fbs blockRange b = true ↔
      b < RoundToBundleStartBlock (toUint64 blockRange.Start) fbs := by
  have hlt := base_add_lt hfbs hdvd hb
  unfold beforeRange
  rw [add64_eq hlt, sub64_eq hlt (by omega), decide_eq_true_iff]
  constructor
  · intro h
    have h1 : b + fbs ≤ RoundToBundleStartBlock (toUint64 blockRange.Start) fbs :=
      le_RoundToBundleStartBlock hsize (Dvd.dvd.add hdvd (dvd_refl _)) (by omega)
    omega
  · intro h
    have h1 := dvd_add_le_of_lt hdvd (RoundToBundleStartBlock_dvd _ _) h
    have h2 := RoundToBundleStartBlock_le (toUint64 blockRange.Start) fbs
    omega

theorem Walk_cons_next {σ α : Type} (f : σ → α → σ × Signal) (s : σ) (k : α) (ks : List α)
    (h : (f s k).2 = Signal.next) : Walk f s (k :: ks) = Walk f (f s k).1 ks := by
  rcases hfk : f s k with ⟨s', sig⟩
  rw [hfk] at h
  simp only at h
  subst h
  simp only [Walk, hfk]

theorem Walk_cons_halt {σ α : Type} (f : σ → α → σ × Signal) (s : σ) (k : α) (ks : List α)
    (h : (f s k).2 ≠ Signal.next) : Walk f s (k :: ks) = f s k := by
  rcases hfk : f s k with ⟨s', sig⟩
  rw [hfk] at h
  cases sig
  · exact absurd rfl h
  · simp only [Walk, hfk]
  · simp only [Walk, hfk]

theorem visited_cons_next {σ α : Type} (f : σ → α → σ × Signal) (s : σ) (k : α) (ks : List α)
    (h : (f s k).2 = Signal.next) : visited f s (k :: ks) = k :: visited f (f s k).1 ks := by
  rcases hfk : f s k with ⟨s', sig⟩
  rw [hfk] at h
  simp only at h
  subst h
  simp only [visited, hfk]

theorem visited_cons_halt {σ α : Type} (f : σ → α → σ × Signal) (s : σ) (k : α) (ks : List α)
    (h : (f s k).2 ≠ Signal.next) : visited f s (k :: ks) = [k] := by
  rcases hfk : f s k with ⟨s', sig⟩
  rw [hfk] at h
  cases sig
  · exact absurd rfl h
  · simp only [visited, hfk]
  · simp only [visited, hfk]

theorem visited_sublist {σ α : Type} (f : σ → α → σ × Signal) :
    ∀ (s : σ) (l : List α), (visited f s l).Sublist l
  | _, [] => by simp [visited]
  | s, k :: ks => by
    by_cases h : (f s k).2 = Signal.next
    · rw [visited_cons_next f s k ks h]
      exact (visited_sublist f _ ks).cons₂ k
    · rw [visited_cons_halt f s k ks h]
      exact List.singleton_sublist.mpr (List.mem_cons_self _ _)

section walk

variable {F : Type} (env : Env F) (store : Store) (fileBlockSize : Nat)
  (blockRange : BlockRange) (printDetails : PrintDetails)

theorem processedBases_nil (s : WalkState F) :
    processedBases env store fileBlockSize blockRange printDetails s [] = [] := rfl

theorem processedBases_cons_before (s : WalkState F) (x : String × Nat)
    (rest : List (String × Nat)) (h : beforeRange fileBlockSize blockRange x.2 = true) :
    processedBases env store fileBlockSize blockRange printDetails s (x :: rest)
      = processedBases env store fileBlockSize blockRange printDetails
          { s with count := s.count + 1 } rest := by
  have hv := visitBundle_before env store fileBlockSize blockRange printDetails s x h
  unfold processedBases
  rw [visited_cons_next _ _ _ _ (by rw [hv]), hv]
  simp [h]

theorem processedBases_cons_next (s : WalkState F) (x : String × Nat)
    (rest : List (String × Nat)) (h : beforeRange fileBlockSize blockRange x.2 = false)
    (hsig : (visitBundle env store fileBlockSize blockRange printDetails s x).2 = Signal.next) :
    processedBases env store fileBlockSize blockRange printDetails s (x :: rest)
      = x.2 :: processedBases env store fileBlockSize blockRange printDetails
          (visitBundle env store fileBlockSize blockRange printDetails s x).1 rest := by
  unfold processedBases
  rw [visited_cons_next _ _ _ _ hsig]
  simp [h]

theorem processedBases_cons_halt (s : WalkState F) (x : String × Nat)
    (rest : List (String × Nat)) (h : beforeRange fileBlockSize blockRange x.2 = false)
    (hsig : (visitBundle env store fileBlockSize blockRange printDetails s x).2 ≠ Signal.next) :
    processedBases env store fileBlockSize blockRange printDetails s (x :: rest) = [x.2] := by
  unfold processedBases
  rw [visited_cons_halt _ _ _ _ hsig]
  simp [h]

theorem processedBases_subset (s : WalkState F) (bundles : List (String × Nat)) (b : Nat)
    (h : b ∈ processedBases env store fileBlockSize blockRange printDetails s bundles) :
    b ∈ bundles.map Prod.snd := by
  unfold processedBases at h
  have h1 := (List.mem_filter.mp h).1
  exact ((visited_sublist _ s bundles).map Prod.snd).subset h1

/-- The hole flag after a walk from any state whose expected base is aligned,
not below the rounded start, and not above any base still to be processed. -/
theorem walk_holeFound_iff (hsize : 0 < fileBlockSize) (hfbs : fileBlockSize < 2 ^ 64) :
    ∀ (bundles : List (String × Nat)) (s : WalkState F),
      (bundles.map Prod.snd).Pairwise (· < ·) →
      (∀ b ∈ bundles.map Prod.snd, fileBlockSize ∣ b) →
      (∀ b ∈ bundles.map Prod.snd, b < 2 ^ 32) →
      fileBlockSize ∣ s.expected →
      RoundToBundleStartBlock (toUint64 blockRange.Start) fileBlockSize ≤ s.expected →
      (∀ b ∈ bundles.map Prod.snd,
        b < RoundToBundleStartBlock (toUint64 blockRange.Start) fileBlockSize ∨ s.expected ≤ b) →
      ((Walk (visitBundle env store fileBlockSize blockRange printDetails) s bundles).1.holeFound
          = true ↔
        s.holeFound = true ∨
          ∃ last, (processedBases env store fileBlockSize blockRange printDetails s
              bundles).getLast? = some last ∧
            ∃ m, fileBlockSize ∣ m ∧ s.expected ≤ m ∧ m ≤ last ∧ m ∉ bundles.map Prod.snd)
  | [], s, _, _, _, _, _, _ => by
    simp [Walk, processedBases_nil]
  | x :: rest, s, hsorted, haligned, hbound, hdvd, hlo, hnext => by
    have hsorted' : (rest.map Prod.snd).Pairwise (· < ·) := by
      simp only [List.map_cons, List.pairwise_cons] at hsorted
      exact hsorted.2
    have hgt : ∀ b ∈ rest.map Prod.snd, x.2 < b := by
      simp only [List.map_cons, List.pairwise_cons] at hsorted
      exact hsorted.1
    have haligned' : ∀ b ∈ rest.map Prod.snd, fileBlockSize ∣ b :=
      fun b hb => haligned b (by simp only [List.map_cons]; exact List.mem_cons_of_mem _ hb)
    have hbound' : ∀ b ∈ rest.map Prod.snd, b < 2 ^ 32 :=
      fun b hb => hbound b (by simp only [List.map_cons]; exact List.mem_cons_of_mem _ hb)
    have hxd : fileBlockSize ∣ x.2 := haligned x.2 (by simp)
    have hxb : x.2 < 2 ^ 32 := hbound x.2 (by simp)
    have hxn := hnext x.2 (by simp)
    have hbr := beforeRange_iff blockRange hsize hfbs hxd hxb
    by_cases hbefore : beforeRange fileBlockSize blockRange x.2 = true
    · -- the bundle is ignored
      have hv := visitBundle_before env store fileBlockSize blockRange printDetails s x hbefore
      have hxlt := hbr.mp hbefore
      rw [Walk_cons_next _ _ _ _ (by rw [hv]), hv,
        processedBases_cons_before env store fileBlockSize blockRange printDetails s x rest
          hbefore]
      have ih := walk_holeFound_iff hsize hfbs rest { s with count := s.count + 1 } hsorted'
        haligned' hbound' hdvd hlo
        (fun b hb => hnext b (by simp only [List.map_cons]; exact List.mem_cons_of_mem _ hb))
      rw [ih]
      constructor
      · rintro (h | ⟨last, hl, m, hm1, hm2, hm3, hm4⟩)
        · exact Or.inl h
        · refine Or.inr ⟨last, hl, m, hm1, hm2, hm3, ?_⟩
          simp only [List.map_cons, List.mem_cons, not_or]
          exact ⟨by have : s.expected ≤ m := hm2; omega, hm4⟩
      · rintro (h | ⟨last, hl, m, hm1, hm2, hm3, hm4⟩)
        · exact Or.inl h
        · refine Or.inr ⟨last, hl, m, hm1, hm2, hm3, ?_⟩
          simp only [List.map_cons, List.mem_cons, not_or] at hm4
          exact hm4.2
    · -- the bundle is processed
      have hbefore' : beforeRange fileBlockSize blockRange x.2 = false := by
        simpa using hbefore
      have hge : s.expected ≤ x.2 := by
        rcases hxn with h | h
        · exact absurd (hbr.mpr h) hbefore
        · exact h
      obtain ⟨hexp, hhole, -⟩ :=
        visitBundle_processed env store fileBlockSize blockRange printDetails s x hbefore'
      have hadd : add64 x.2 fileBlockSize = x.2 + fileBlockSize :=
        add64_eq (base_add_lt hfbs hxd hxb)
      rw [hadd] at hexp
      by_cases hsig : (visitBundle env store fileBlockSize blockRange printDetails s x).2
          = Signal.next
      · rw [Walk_cons_next _ _ _ _ hsig,
          processedBases_cons_next env store fileBlockSize blockRange printDetails s x rest
            hbefore' hsig]
        have ih := walk_holeFound_iff hsize hfbs rest
          (visitBundle env store fileBlockSize blockRange printDetails s x).1 hsorted'
          haligned' hbound' (by rw [hexp]; exact Dvd.dvd.add hxd (dvd_refl _))
          (by rw [hexp]; omega)
          (fun b hb => Or.inr (by
            rw [hexp]; exact dvd_add_le_of_lt hxd (haligned' b hb) (hgt b hb)))
        rw [ih, hhole, hexp]
        have hsub := processedBases_subset env store fileBlockSize blockRange printDetails
          (visitBundle env store fileBlockSize blockRange printDetails s x).1 rest
        constructor
        · rintro (h | ⟨last, hl, m, hm1, hm2, hm3, hm4⟩)
          · simp only [Bool.or_eq_true, decide_eq_true_eq] at h
            rcases h with h | h
            · exact Or.inl h
            · right
              have hlast : ∃ last, (x.2 :: processedBases env store fileBlockSize blockRange
                  printDetails (visitBundle env store fileBlockSize blockRange printDetails
                    s x).1 rest).getLast? = some last ∧ x.2 ≤ last := by
                rw [List.getLast?_cons]
                cases hp : (processedBases env store fileBlockSize blockRange printDetails
                    (visitBundle env store fileBlockSize blockRange printDetails s x).1
                    rest).getLast? with
                | none => exact ⟨x.2, rfl, le_refl _⟩
                | some y =>
                  exact ⟨y, rfl, le_of_lt (hgt y (hsub y (List.mem_of_getLast?_eq_some hp)))⟩
              obtain ⟨last, hl, hle⟩ := hlast
              refine ⟨last, hl, s.expected, hdvd, le_refl _, le_trans hge hle, ?_⟩
              simp only [List.map_cons, List.mem_cons, not_or]
              refine ⟨fun hh => h hh.symm, fun hmem => ?_⟩
              have := hgt _ hmem
              omega
          · right
            refine ⟨last, ?_, m, hm1, by omega, hm3, ?_⟩
            · rw [List.getLast?_cons, hl]; rfl
            · simp only [List.map_cons, List.mem_cons, not_or]
              exact ⟨by omega, hm4⟩
        · rintro (h | ⟨last, hl, m, hm1, hm2, hm3, hm4⟩)
          · left; simp [h]
          · simp only [List.map_cons, List.mem_cons, not_or] at hm4
            rcases Nat.lt_or_ge m x.2 with hlt | hge'
            · left
              simp only [Bool.or_eq_true, decide_eq_true_eq]
              right; omega
            · have hmgt : x.2 < m := lt_of_le_of_ne hge' (fun hh => hm4.1 hh.symm)
              have hm5 := dvd_add_le_of_lt hxd hm1 hmgt
              right
              rw [List.getLast?_cons] at hl
              cases hp : (processedBases env store fileBlockSize blockRange printDetails
                  (visitBundle env store fileBlockSize blockRange printDetails s x).1
                  rest).getLast? with
              | none =>
                rw [hp] at hl
                simp only [Option.getD_none, Option.some.injEq] at hl
                omega
              | some y =>
                rw [hp] at hl
                simp only [Option.getD_some, Option.some.injEq] at hl
                subst hl
                exact ⟨y, rfl, m, hm1, hm5, hm3, hm4.2⟩
      · rw [Walk_cons_halt _ _ _ _ hsig,
          processedBases_cons_halt env store fileBlockSize blockRange printDetails s x rest
            hbefore' hsig, hhole]
        simp only [Bool.or_eq_true, decide_eq_true_eq, List.getLast?_singleton,
          Option.some.injEq, exists_eq_left']
        constructor
        · rintro (h | h)
          · exact Or.inl h
          · right
            refine ⟨s.expected, hdvd, le_refl _, hge, ?_⟩
            simp only [List.map_cons, List.mem_cons, not_or]
            refine ⟨fun hh => h hh.symm, fun hmem => ?_⟩
            have := hgt _ hmem
            omega
        · rintro (h | ⟨m, -, hm2, hm3, hm4⟩)
          · exact Or.inl h
          · right
            simp only [List.map_cons, List.mem_cons, not_or] at hm4
            intro hh
            have : m ≠ x.2 := hm4.1
            omega

end walk

/-- The callback on names is the callback on the bundles the names parse to:
a name without a run of ten digits leaves every variable as it was. -/
theorem Walk_walkFn {F : Type} (env : Env F) (store : Store) (fileBlockSize : Nat)
    (blockRange : BlockRange) (printDetails : PrintDetails) :
    ∀ (keys : List String) (s : WalkState F),
      Walk (walkFn env store fileBlockSize blockRange printDetails) s keys
        = Walk (visitBundle env store fileBlockSize blockRange printDetails) s
            (keys.filterMap parseKey)
  | [], _ => rfl
  | k :: ks, s => by
    cases hk : parseKey k with
    | none =>
      have h1 : walkFn env store fileBlockSize blockRange printDetails s k = (s, Signal.next) := by
        simp only [walkFn, hk]
      rw [Walk_cons_next _ _ _ _ (by rw [h1]), h1, List.filterMap_cons_none hk]
      exact Walk_walkFn env store fileBlockSize blockRange printDetails ks s
    | some x =>
      have h1 : walkFn env store fileBlockSize blockRange printDetails s k
          = visitBundle env store fileBlockSize blockRange printDetails s x := by
        simp only [walkFn, hk]
      rw [List.filterMap_cons_some hk]
      by_cases hsig : (visitBundle env store fileBlockSize blockRange printDetails s x).2
          = Signal.next
      · rw [Walk_cons_next _ _ _ _ (by rw [h1]; exact hsig), Walk_cons_next _ _ _ _ hsig, h1]
        exact Walk_walkFn env store fileBlockSize blockRange printDetails ks _
      · rw [Walk_cons_halt _ _ _ _ (by rw [h1]; exact hsig), Walk_cons_halt _ _ _ _ hsig, h1]

/-- Claim C1. For bundles of `fileBlockSize > 0` blocks and a strictly increasing
sequence of aligned base numbers as the callback reads them (below `2^32`),
`holeFound` is true when the walk ends iff some multiple of `fileBlockSize`
between `roundToBundleStart(range.start)` and the last processed base,
inclusive, is absent from the sequence; a sequence without gaps leaves
`holeFound` false.  (`toUint64 blockRange.Start` is the start of a resolved
range.) -/
theorem CheckMergedBlocks_holeFound_iff_gap {F : Type} (env : Env F) (store : Store)
    (storeURL : String) (fileBlockSize : Nat) (blockRange : BlockRange)
    (printDetails : PrintDetails) (bundles : List (String × Nat))
    (hsize : 0 < fileBlockSize) (hfbs : fileBlockSize < 2 ^ 64)
    (hsorted : (bundles.map Prod.snd).Pairwise (· < ·))
    (haligned : ∀ b ∈ bundles.map Prod.snd, fileBlockSize ∣ b)
    (hbound : ∀ b ∈ bundles.map Prod.snd, b < 2 ^ 32) :
    ((Walk (visitBundle env store fileBlockSize blockRange printDetails)
        (initState env storeURL fileBlockSize blockRange printDetails) bundles).1.holeFound
        = true ↔
      ∃ last, (processedBases env store fileBlockSize blockRange printDetails
          (initState env storeURL fileBlockSize blockRange printDetails) bundles).getLast?
            = some last ∧
        ∃ m, fileBlockSize ∣ m ∧
          RoundToBundleStartBlock (toUint64 blockRange.Start) fileBlockSize ≤ m ∧ m ≤ last ∧
          m ∉ bundles.map Prod.snd) ∧
    ((∀ m, fileBlockSize ∣ m →
        RoundToBundleStartBlock (toUint64 blockRange.Start) fileBlockSize ≤ m →
        (∃ b ∈ bundles.map Prod.snd, m ≤ b) → m ∈ bundles.map Prod.snd) →
      (Walk (visitBundle env store fileBlockSize blockRange printDetails)
        (initState env storeURL fileBlockSize blockRange printDetails) bundles).1.holeFound
        = false) := by
  have hmain := walk_holeFound_iff env store fileBlockSize blockRange printDetails hsize hfbs
    bundles (initState env storeURL fileBlockSize blockRange printDetails) hsorted haligned
    hbound (RoundToBundleStartBlock_dvd _ _) (le_refl _)
    (fun b _ => by
      rcases Nat.lt_or_ge b (RoundToBundleStartBlock (toUint64 blockRange.Start)
        fileBlockSize) with h | h
      · exact Or.inl h
      · exact Or.inr h)
  have hiff : (Walk (visitBundle env store fileBlockSize blockRange printDetails)
        (initState env storeURL fileBlockSize blockRange printDetails) bundles).1.holeFound
        = true ↔
      ∃ last, (processedBases env store fileBlockSize blockRange printDetails
          (initState env storeURL fileBlockSize blockRange printDetails) bundles).getLast?
            = some last ∧
        ∃ m, fileBlockSize ∣ m ∧
          RoundToBundleStartBlock (toUint64 blockRange.Start) fileBlockSize ≤ m ∧ m ≤ last ∧
          m ∉ bundles.map Prod.snd := by
    rw [hmain]
    constructor
    · rintro (h | h)
      · exact absurd h (by simp [initState])
      · exact h
    · exact fun h => Or.inr h
  refine ⟨hiff, fun hfull => ?_⟩
  rw [← Bool.not_eq_true, hiff]
  rintro ⟨last, hl, m, hm1, hm2, hm3, hm4⟩
  exact hm4 (hfull m hm1 hm2 ⟨last, processedBases_subset env store fileBlockSize blockRange
    printDetails _ bundles last (List.mem_of_getLast?_eq_some hl), hm3⟩)

/-- Witness for claim C1: bundles 0, 100, 300 of 100 blocks in the range
`[0, 400)`; the multiple 200 is absent and `holeFound` ends true. -/
theorem CheckMergedBlocks_holeFound_iff_gap_witness :
    (Walk (visitBundle (listingEnv []) (listingStore []) 100
        ⟨0, some 400⟩ PrintDetails.PrintNoDetails)
      (initState (listingEnv []) "store" 100 ⟨0, some 400⟩ PrintDetails.PrintNoDetails)
      [("0000000000", 0), ("0000000100", 100), ("0000000300", 300)]).1.holeFound = true :=
  (CheckMergedBlocks_holeFound_iff_gap (listingEnv []) (listingStore [])
    "store" 100 ⟨0, some 400⟩ PrintDetails.PrintNoDetails
    [("0000000000", 0), ("0000000100", 100), ("0000000300", 300)]
    (by decide) (by decide) (by decide) (by decide) (by decide)).1.mpr
    ⟨300, by decide, 200, by decide, by decide, by decide, by decide⟩

section walk

variable {F : Type} (env : Env F) (store : Store) (fileBlockSize : Nat)
  (blockRange : BlockRange) (printDetails : PrintDetails)

theorem visitBundle_stop (s : WalkState F) (x : String × Nat)
    (h : (visitBundle env store fileBlockSize blockRange printDetails s x).2 = Signal.stop) :
    beforeRange fileBlockSize blockRange x.2 = false ∧
      stopSignal fileBlockSize blockRange x.2 = true := by
  unfold visitBundle at h
  simp only at h
  split_ifs at h with h1 h2 h3
  · exact ⟨by simpa using h1, h3⟩

theorem visitBundle_next (s : WalkState F) (x : String × Nat)
    (h : (visitBundle env store fileBlockSize blockRange printDetails s x).2 = Signal.next) :
    beforeRange fileBlockSize blockRange x.2 = true ∨
      stopSignal fileBlockSize blockRange x.2 = false := by
  unfold visitBundle at h
  simp only at h
  split_ifs at h with h1 h2 h3
  · exact Or.inl h1
  · exact Or.inr (by simpa using h3)

theorem recordSeen_listing_no_panic (filename : String) (b : Nat) (s : WalkState F) :
    (recordSeen env store fileBlockSize blockRange PrintDetails.PrintNoDetails filename b s).2
      = false := by
  unfold recordSeen
  simp

theorem visitBundle_listing_no_panic (s : WalkState F) (x : String × Nat) :
    (visitBundle env store fileBlockSize blockRange PrintDetails.PrintNoDetails s x).2
      ≠ Signal.panic := by
  unfold visitBundle
  simp only [recordSeen_listing_no_panic, Bool.false_eq_true, if_false]
  split_ifs <;> simp

theorem mem_dropLast_cons {α : Type} (a y : α) (l : List α) (h : y ∈ (a :: l).dropLast) :
    (y = a ∧ l ≠ []) ∨ y ∈ l.dropLast := by
  cases l with
  | nil => simp at h
  | cons b l =>
    simp only [List.dropLast_cons₂, List.mem_cons] at h
    rcases h with h | h
    · exact Or.inl ⟨h, by simp⟩
    · exact Or.inr h

theorem processedBases_dropLast_no_stop :
    ∀ (bundles : List (String × Nat)) (s : WalkState F),
      ∀ b ∈ (processedBases env store fileBlockSize blockRange printDetails s
        bundles).dropLast, stopSignal fileBlockSize blockRange b = false
  | [], s => by simp [processedBases_nil]
  | x :: rest, s => by
    intro b hb
    by_cases hbefore : beforeRange fileBlockSize blockRange x.2 = true
    · rw [processedBases_cons_before env store fileBlockSize blockRange printDetails s x rest
        hbefore] at hb
      exact processedBases_dropLast_no_stop rest _ b hb
    · have hbefore' : beforeRange fileBlockSize blockRange x.2 = false := by
        simpa using hbefore
      by_cases hsig : (visitBundle env store fileBlockSize blockRange printDetails s x).2
          = Signal.next
      · rw [processedBases_cons_next env store fileBlockSize blockRange printDetails s x rest
          hbefore' hsig] at hb
        rcases mem_dropLast_cons _ _ _ hb with ⟨rfl, -⟩ | h
        · rcases visitBundle_next env store fileBlockSize blockRange printDetails s x hsig
            with h | h
          · exact absurd h hbefore
          · exact h
        · exact processedBases_dropLast_no_stop rest _ b h
      · rw [processedBases_cons_halt env store fileBlockSize blockRange printDetails s x rest
          hbefore' hsig] at hb
        simp at hb

end walk

theorem stopSignal_closed (fileBlockSize : Nat) (start : Int) (stop b : Nat) :
    (stopSignal fileBlockSize ⟨start, some stop⟩ b = true ↔
      RoundToBundleEndBlock b fileBlockSize ≥ sub64 stop 1) := by
  unfold stopSignal
  rw [Option.any_some, decide_eq_true_iff]

theorem stopSignal_open (fileBlockSize : Nat) (start : Int) (b : Nat) :
    stopSignal fileBlockSize ⟨start, none⟩ b = false := by
  unfold stopSignal
  rw [Option.any_none]

/-- A walker that ends at the stop signal is `Walk`. -/
theorem WalkOn_true {σ α : Type} (f : σ → α → σ × Signal) :
    ∀ (ks : List α) (s : σ), WalkOn true f s ks = Walk f s ks
  | [], _ => rfl
  | k :: ks, s => by
    rcases hfk : f s k with ⟨s', sig⟩
    cases sig
    · simp only [WalkOn, Walk, hfk]
      exact WalkOn_true f ks s'
    · simp only [WalkOn, Walk, hfk, if_true]
    · simp only [WalkOn, Walk, hfk]

/-- A walker that ends at the stop signal calls the callback on `visited`. -/
theorem visitedOn_true {σ α : Type} (f : σ → α → σ × Signal) :
    ∀ (ks : List α) (s : σ), visitedOn true f s ks = visited f s ks
  | [], _ => rfl
  | k :: ks, s => by
    rcases hfk : f s k with ⟨s', sig⟩
    cases sig
    · simp only [visitedOn, visited, hfk]
      rw [visitedOn_true f ks s']
    · simp only [visitedOn, visited, hfk, if_true]
    · simp only [visitedOn, visited, hfk]

/-- Claim C10, amended. For a closed range the walk callback, when it returns on
a processed bundle with base `b`, returns the stop signal iff
`roundToBundleEnd(b) >= range.stop - 1` (in listing-only mode it always
returns); for an open range it never returns the stop signal.  When the walker
of the store ends the listing at the stop signal, every processed bundle but
the last has `roundToBundleEnd(b) < range.stop - 1`: nothing is processed after
the first processed bundle that reaches `stop - 1`.
(`sub64 stop 1` is `stop - 1` as the code computes it, on `uint64`.) -/
theorem visitBundle_stops_at_range_end {F : Type} (env : Env F) (store : Store)
    (fileBlockSize : Nat) (start : Int) (printDetails : PrintDetails) (s : WalkState F) :
    (∀ (stop : Nat) (x : String × Nat),
      beforeRange fileBlockSize ⟨start, some stop⟩ x.2 = false →
      (visitBundle env store fileBlockSize ⟨start, some stop⟩ printDetails s x).2
        ≠ Signal.panic →
      ((visitBundle env store fileBlockSize ⟨start, some stop⟩ printDetails s x).2
          = Signal.stop ↔
        RoundToBundleEndBlock x.2 fileBlockSize ≥ sub64 stop 1)) ∧
    (∀ (stop : Nat) (x : String × Nat),
      (visitBundle env store fileBlockSize ⟨start, some stop⟩
        PrintDetails.PrintNoDetails s x).2 ≠ Signal.panic) ∧
    (∀ x : String × Nat,
      (visitBundle env store fileBlockSize ⟨start, none⟩ printDetails s x).2 ≠ Signal.stop) ∧
    (store.endsAtStop = true →
      ∀ (stop : Nat) (bundles : List (String × Nat)),
      ∀ b ∈ (processedBasesOn env store fileBlockSize ⟨start, some stop⟩ printDetails s
        bundles).dropLast, RoundToBundleEndBlock b fileBlockSize < sub64 stop 1) := by
  refine ⟨?_, ?_, ?_, ?_⟩
  · intro stop x hbefore hpanic
    constructor
    · intro h
      exact (stopSignal_closed fileBlockSize start stop x.2).mp
        (visitBundle_stop env store fileBlockSize _ printDetails s x h).2
    · intro h
      cases hsig : (visitBundle env store fileBlockSize ⟨start, some stop⟩ printDetails s x).2
        with
      | stop => rfl
      | panic => exact absurd hsig hpanic
      | next =>
        rcases visitBundle_next env store fileBlockSize _ printDetails s x hsig with h1 | h1
        · rw [hbefore] at h1; exact absurd h1 Bool.false_ne_true
        · rw [(stopSignal_closed fileBlockSize start stop x.2).mpr h] at h1
          exact Bool.noConfusion h1
  · intro stop x
    exact visitBundle_listing_no_panic env store fileBlockSize _ s x
  · intro x h
    have h1 := (visitBundle_stop env store fileBlockSize _ printDetails s x h).2
    rw [stopSignal_open] at h1
    exact Bool.noConfusion h1
  · intro hends stop bundles b hb
    unfold processedBasesOn at hb
    rw [hends, visitedOn_true] at hb
    have h1 := processedBases_dropLast_no_stop env store fileBlockSize _ printDetails bundles
      s b hb
    by_contra hcon
    rw [(stopSignal_closed fileBlockSize start stop b).mpr (not_lt.mp hcon)] at h1
    exact Bool.noConfusion h1

/-- Witness for claim C10: in the range `[0, 300)` with bundles of 100 the
callback returns the stop signal on base 200, whose last block is 299. -/
theorem visitBundle_stops_at_range_end_witness :
    (visitBundle (listingEnv []) (listingStore []) 100 ⟨0, some 300⟩
        PrintDetails.PrintNoDetails
        (initState (listingEnv []) "store" 100 ⟨0, some 300⟩ PrintDetails.PrintNoDetails)
        ("0000000200", 200)).2 = Signal.stop ↔
      RoundToBundleEndBlock 200 100 ≥ sub64 300 1 :=
  (visitBundle_stops_at_range_end (listingEnv []) (listingStore []) 100 0
    PrintDetails.PrintNoDetails
    (initState (listingEnv []) "store" 100 ⟨0, some 300⟩ PrintDetails.PrintNoDetails)).1
    300 ("0000000200", 200) (by decide) (by decide)

/-- Counterexample to claim C10 as stated.  With bundles of 100, the range
`[0, 300)`, the keys 0, 100, 200, 300 and a store whose walker goes on with the
listing after the stop signal: the callback returns the stop signal on bundle
200, whose last block is 299, and bundle 300 is processed after it; the report
covers `[0, 400]`. -/
theorem CheckMergedBlocks_processes_past_stop_signal :
    (visitBundle
        (lingeringEnv ["0000000000", "0000000100", "0000000200", "0000000300"])
        (lingeringStore ["0000000000", "0000000100", "0000000200", "0000000300"])
        100 ⟨0, some 300⟩ PrintDetails.PrintNoDetails
        (walkEnd (lingeringEnv ["0000000000", "0000000100", "0000000200", "0000000300"])
          (lingeringStore ["0000000000", "0000000100", "0000000200", "0000000300"])
          "store" 100 ⟨0, some 300⟩ PrintDetails.PrintNoDetails
          [("0000000000", 0), ("0000000100", 100)])
        ("0000000200", 200)).2 = Signal.stop ∧
      RoundToBundleEndBlock 200 100 ≥ 300 - 1 ∧
      processedBasesOn
        (lingeringEnv ["0000000000", "0000000100", "0000000200", "0000000300"])
        (lingeringStore ["0000000000", "0000000100", "0000000200", "0000000300"])
        100 ⟨0, some 300⟩ PrintDetails.PrintNoDetails
        (initState (lingeringEnv ["0000000000", "0000000100", "0000000200", "0000000300"])
          "store" 100 ⟨0, some 300⟩ PrintDetails.PrintNoDetails)
        (["0000000000", "0000000100", "0000000200", "0000000300"].filterMap parseKey)
        = [0, 100, 200, 300] ∧
      CheckMergedBlocks
          (lingeringEnv ["0000000000", "0000000100", "0000000200", "0000000300"])
          "store" 100 ⟨0, some 300⟩ PrintDetails.PrintNoDetails =
        ⟨[Line.checking "store", Line.covered ⟨0, some 400⟩, Line.blank, Line.summary,
          Line.noHoleFound], Result.ok⟩ := by
  decide

theorem linkBlock_out_not_range {F : Type} (db : ForkDB F) (tfdb : trackedForkDB F)
    (block : Block) : ∀ l ∈ (linkBlock db tfdb block).out, l.isRange = false := by
  have h1 : ∀ l ∈ ([] : List Line), l.isRange = false := fun l hl => absurd hl (List.not_mem_nil l)
  have h2 : ∀ l ∈ [Line.notLinkable block.Number], l.isRange = false := by
    intro l hl
    rw [List.mem_singleton] at hl
    subst hl; rfl
  have h3 : ∀ (c a b : Nat), ∀ l ∈ [Line.notLinkable block.Number, Line.largeGap c a b],
      l.isRange = false := by
    intro c a b l hl
    rw [List.mem_cons, List.mem_singleton] at hl
    rcases hl with rfl | rfl <;> rfl
  unfold linkBlock
  simp only
  split_ifs
  · exact h1
  · exact h1
  · split
    · exact h3 _ _ _
    · exact h2
  · split
    · exact h3 _ _ _
    · exact h2
  · exact h2
  · exact h2

theorem not_range_append {a b : List Line} (ha : ∀ l ∈ a, l.isRange = false)
    (hb : ∀ l ∈ b, l.isRange = false) : ∀ l ∈ a ++ b, l.isRange = false := by
  intro l hl
  rcases List.mem_append.mp hl with h | h
  · exact ha l h
  · exact hb l h

theorem not_range_singleton {x : Line} (hx : x.isRange = false) :
    ∀ l ∈ [x], l.isRange = false := by
  intro l hl
  rw [List.mem_singleton] at hl
  subst hl; exact hx

theorem readBlocks_out_not_range {F : Type} (env : Env F) (segment : String)
    (fileBlockSize : Nat) (blockRange : BlockRange) (printDetails : PrintDetails)
    (endsWithError : Bool) :
    ∀ (blocks : List Block) (s : SegmentState F), (∀ l ∈ s.out, l.isRange = false) →
      ∀ l ∈ (readBlocks env segment fileBlockSize blockRange printDetails endsWithError
        blocks s).out, l.isRange = false
  | [], s, hs => by
    unfold readBlocks
    split_ifs
    · exact not_range_append hs (not_range_singleton rfl)
    · exact not_range_append hs (not_range_singleton rfl)
    · exact hs
  | block :: rest, s, hs => by
    have hlink := linkBlock_out_not_range env.fdb s.tfdb block
    have hbase := not_range_append hs hlink
    unfold readBlocks
    simp only
    split_ifs
    all_goals first
      | exact readBlocks_out_not_range env segment fileBlockSize blockRange printDetails
          endsWithError rest s hs
      | exact hs
      | exact hbase
      | exact readBlocks_out_not_range env segment fileBlockSize blockRange printDetails
          endsWithError rest _ hbase
      | exact readBlocks_out_not_range env segment fileBlockSize blockRange printDetails
          endsWithError rest _ (not_range_append hbase (not_range_singleton rfl))
      | exact readBlocks_out_not_range env segment fileBlockSize blockRange printDetails
          endsWithError rest _
          (not_range_append (not_range_append hbase (not_range_singleton rfl))
            (not_range_singleton rfl))

theorem validateBlockSegment_out_not_range {F : Type} (env : Env F) (store : Store)
    (segment : String) (fileBlockSize : Nat) (blockRange : BlockRange)
    (printDetails : PrintDetails) (tfdb : trackedForkDB F) :
    ∀ l ∈ (validateBlockSegment env store segment fileBlockSize blockRange printDetails
      tfdb).out, l.isRange = false := by
  unfold validateBlockSegment
  simp only
  split
  · exact not_range_singleton rfl
  · exact not_range_singleton rfl
  · exact readBlocks_out_not_range env segment fileBlockSize blockRange printDetails _ _ _
      (fun l hl => absurd hl (List.not_mem_nil l))

theorem toUint64_of_nonneg {x : Int} (h0 : 0 ≤ x) (h1 : x < 2 ^ 63) :
    toUint64 x = x.toNat := by
  unfold toUint64
  rw [Int.emod_eq_of_lt h0 (lt_trans h1 (by norm_num))]

theorem toInt64_toUint64 {x : Int} (h0 : 0 ≤ x) (h1 : x < 2 ^ 63) :
    toInt64 (toUint64 x) = x := by
  rw [toUint64_of_nonneg h0 h1]
  unfold toInt64
  have h2 : x.toNat < 2 ^ 63 := by
    have := Int.toNat_of_nonneg h0
    omega
  rw [Nat.mod_eq_of_lt (lt_trans h2 (by norm_num)), if_pos h2]
  exact Int.toNat_of_nonneg h0

section walk

variable {F : Type} (env : Env F) (store : Store) (fileBlockSize : Nat)
  (blockRange : BlockRange) (printDetails : PrintDetails)

theorem recordSeen_out (filename : String) (b : Nat) (s : WalkState F) :
    ∀ l ∈ (recordSeen env store fileBlockSize blockRange printDetails filename b s).1.out,
      l ∈ s.out ∨ l.isRange = false := by
  unfold recordSeen
  by_cases h : printDetails ≠ PrintDetails.PrintNoDetails
  · rw [if_pos h]
    intro l hl
    rcases List.mem_append.mp hl with hl | hl
    · exact Or.inl hl
    · exact Or.inr (validateBlockSegment_out_not_range env store filename fileBlockSize
        blockRange printDetails s.tfdb l hl)
  · rw [if_neg h]
    intro l hl
    exact Or.inl hl

theorem reportMismatch_of_eq (b : Nat) (s : WalkState F) (h : b = s.expected) :
    reportMismatch fileBlockSize b s = s := by
  unfold reportMismatch
  rw [if_neg (not_not.mpr h)]

theorem flushProgress_of_not_multiple (b : Nat) (s : WalkState F)
    (h : s.count % 10000 ≠ 0) : flushProgress fileBlockSize b s = s := by
  unfold flushProgress
  rw [if_neg h]

end walk

section walk

variable {F : Type} (env : Env F) (store : Store) (fileBlockSize : Nat)
  (blockRange : BlockRange) (printDetails : PrintDetails)

/-- The callback on a bundle that is not before the range, step by step. -/
theorem visitBundle_of_not_before (s : WalkState F) (x : String × Nat)
    (hb : beforeRange fileBlockSize blockRange x.2 = false) :
    visitBundle env store fileBlockSize blockRange printDetails s x =
      if (recordSeen env store fileBlockSize blockRange printDetails x.1 x.2
            { reportMismatch fileBlockSize x.2 { s with count := s.count + 1 } with
              expected := add64 x.2 fileBlockSize }).2 = true then
        ((recordSeen env store fileBlockSize blockRange printDetails x.1 x.2
            { reportMismatch fileBlockSize x.2 { s with count := s.count + 1 } with
              expected := add64 x.2 fileBlockSize }).1, Signal.panic)
      else
        (flushProgress fileBlockSize x.2
          (recordSeen env store fileBlockSize blockRange printDetails x.1 x.2
            { reportMismatch fileBlockSize x.2 { s with count := s.count + 1 } with
              expected := add64 x.2 fileBlockSize }).1,
         if stopSignal fileBlockSize blockRange x.2 = true then Signal.stop else Signal.next) := by
  unfold visitBundle
  rw [if_neg (by rw [hb]; exact Bool.false_ne_true)]

/-- A processed bundle whose base is the expected one, away from a flush,
prints no range line and keeps the start of the current run. -/
theorem visitBundle_match (s : WalkState F) (x : String × Nat)
    (hb : beforeRange fileBlockSize blockRange x.2 = false) (he : x.2 = s.expected)
    (hc : (s.count + 1) % 10000 ≠ 0) :
    (visitBundle env store fileBlockSize blockRange printDetails s x).1.currentStartBlk
        = s.currentStartBlk ∧
      ∀ l ∈ (visitBundle env store fileBlockSize blockRange printDetails s x).1.out,
        l ∈ s.out ∨ l.isRange = false := by
  rw [visitBundle_of_not_before env store fileBlockSize blockRange printDetails s x hb,
    reportMismatch_of_eq fileBlockSize x.2 { s with count := s.count + 1 } he]
  have hrs := recordSeen_track env store fileBlockSize blockRange printDetails x.1 x.2
    { { s with count := s.count + 1 } with expected := add64 x.2 fileBlockSize }
  have hro := recordSeen_out env store fileBlockSize blockRange printDetails x.1 x.2
    { { s with count := s.count + 1 } with expected := add64 x.2 fileBlockSize }
  by_cases hp : (recordSeen env store fileBlockSize blockRange printDetails x.1 x.2
      { { s with count := s.count + 1 } with expected := add64 x.2 fileBlockSize }).2 = true
  · rw [if_pos hp]
    exact ⟨hrs.2.2.2, hro⟩
  · rw [if_neg hp, flushProgress_of_not_multiple fileBlockSize x.2 _
      (by rw [hrs.2.2.1]; exact hc)]
    exact ⟨hrs.2.2.2, hro⟩

end walk

section walk

variable {F : Type} (env : Env F) (store : Store) (fileBlockSize : Nat)
  (blockRange : BlockRange) (printDetails : PrintDetails)

/-- The walk over a gap-free run of bundles that starts at the expected base
and ends before the next flush prints no range line, finds no hole and keeps
the start of the current run. -/
theorem walk_gap_free (hsize : 0 < fileBlockSize) (hfbs : fileBlockSize < 2 ^ 64) :
    ∀ (bundles : List (String × Nat)) (s : WalkState F),
      bundles.map Prod.snd
        = (List.range bundles.length).map (fun i => s.expected + i * fileBlockSize) →
      s.count + bundles.length < 10000 →
      (∀ b ∈ bundles.map Prod.snd, b < 2 ^ 32) →
      fileBlockSize ∣ s.expected →
      RoundToBundleStartBlock (toUint64 blockRange.Start) fileBlockSize ≤ s.expected →
      (∀ l ∈ s.out, l.isRange = false) →
      (∀ l ∈ (Walk (visitBundle env store fileBlockSize blockRange printDetails) s
          bundles).1.out, l.isRange = false) ∧
        (Walk (visitBundle env store fileBlockSize blockRange printDetails) s
          bundles).1.currentStartBlk = s.currentStartBlk ∧
        (Walk (visitBundle env store fileBlockSize blockRange printDetails) s
          bundles).1.holeFound = s.holeFound
  | [], s, _, _, _, _, _, hout => ⟨hout, rfl, rfl⟩
  | x :: rest, s, hgap, hlen, hbound, hdvd, hlo, hout => by
    rw [List.map_cons, List.length_cons, List.range_succ_eq_map, List.map_cons, List.map_map,
      List.cons.injEq] at hgap
    obtain ⟨hx, hrest⟩ := hgap
    have hx' : x.2 = s.expected := by rw [hx]; omega
    have hxb : x.2 < 2 ^ 32 := hbound x.2 (List.mem_cons_self _ _)
    have hxd : fileBlockSize ∣ x.2 := by rw [hx']; exact hdvd
    have hbefore : beforeRange fileBlockSize blockRange x.2 = false := by
      rw [← Bool.not_eq_true, beforeRange_iff blockRange hsize hfbs hxd hxb, hx']
      omega
    rw [List.length_cons] at hlen
    obtain ⟨hexp, hhole, hcount⟩ :=
      visitBundle_processed env store fileBlockSize blockRange printDetails s x hbefore
    obtain ⟨hcur, hlines⟩ :=
      visitBundle_match env store fileBlockSize blockRange printDetails s x hbefore hx'
        (by omega)
    have hhole' : (visitBundle env store fileBlockSize blockRange printDetails s x).1.holeFound
        = s.holeFound := by
      rw [hhole, hx']
      cases s.holeFound <;> simp
    have hout' : ∀ l ∈ (visitBundle env store fileBlockSize blockRange printDetails s x).1.out,
        l.isRange = false := by
      intro l hl
      rcases hlines l hl with h | h
      · exact hout l h
      · exact h
    by_cases hsig : (visitBundle env store fileBlockSize blockRange printDetails s x).2
        = Signal.next
    · rw [Walk_cons_next _ _ _ _ hsig]
      have hadd : add64 x.2 fileBlockSize = x.2 + fileBlockSize :=
        add64_eq (base_add_lt hfbs hxd hxb)
      have ih := walk_gap_free hsize hfbs rest
        (visitBundle env store fileBlockSize blockRange printDetails s x).1
        (by
          rw [hrest, hexp, hadd, hx']
          apply List.map_congr_left
          intro i _
          show s.expected + (i + 1) * fileBlockSize = s.expected + fileBlockSize + i * fileBlockSize
          ring)
        (by rw [hcount]; omega)
        (fun b hb => hbound b (List.mem_cons_of_mem _ hb))
        (by rw [hexp, hadd]; exact Dvd.dvd.add hxd (dvd_refl _))
        (by rw [hexp, hadd]; omega)
        hout'
      exact ⟨ih.1, by rw [ih.2.1, hcur], by rw [ih.2.2, hhole']⟩
    · rw [Walk_cons_halt _ _ _ _ hsig]
      exact ⟨hout', hcur, hhole'⟩

end walk

section listing

variable {F : Type} (env : Env F) (store : Store) (fileBlockSize : Nat)
  (blockRange : BlockRange)

theorem reportMismatch_seen (b : Nat) (s : WalkState F) :
    (reportMismatch fileBlockSize b s).tfdb = s.tfdb ∧
      (reportMismatch fileBlockSize b s).highestBlockSeen = s.highestBlockSeen ∧
      (reportMismatch fileBlockSize b s).lowestBlockSeen = s.lowestBlockSeen := by
  unfold reportMismatch; split_ifs <;> exact ⟨rfl, rfl, rfl⟩

theorem flushProgress_seen (b : Nat) (s : WalkState F) :
    (flushProgress fileBlockSize b s).tfdb = s.tfdb ∧
      (flushProgress fileBlockSize b s).highestBlockSeen = s.highestBlockSeen ∧
      (flushProgress fileBlockSize b s).lowestBlockSeen = s.lowestBlockSeen := by
  unfold flushProgress; split_ifs <;> exact ⟨rfl, rfl, rfl⟩

theorem recordSeen_listing (filename : String) (b : Nat) (s : WalkState F) :
    recordSeen env store fileBlockSize blockRange PrintDetails.PrintNoDetails filename b s =
      ({ s with
          lowestBlockSeen := if b < s.lowestBlockSeen then b else s.lowestBlockSeen,
          highestBlockSeen := if add64 b fileBlockSize > s.highestBlockSeen
                              then add64 b fileBlockSize else s.highestBlockSeen }, false) := by
  unfold recordSeen
  rw [if_neg (not_not.mpr rfl)]

/-- Listing-only mode: what one call of the callback does to the fork tracker
and to `highestBlockSeen` and `lowestBlockSeen`. -/
theorem visitBundle_listing_seen (s : WalkState F) (x : String × Nat) :
    (visitBundle env store fileBlockSize blockRange PrintDetails.PrintNoDetails s x).1.tfdb
        = s.tfdb ∧
      (visitBundle env store fileBlockSize blockRange PrintDetails.PrintNoDetails
          s x).1.highestBlockSeen
        = (if beforeRange fileBlockSize blockRange x.2 = true then s.highestBlockSeen
           else if add64 x.2 fileBlockSize > s.highestBlockSeen then add64 x.2 fileBlockSize
           else s.highestBlockSeen) ∧
      (visitBundle env store fileBlockSize blockRange PrintDetails.PrintNoDetails
          s x).1.lowestBlockSeen
        = (if beforeRange fileBlockSize blockRange x.2 = true then s.lowestBlockSeen
           else if x.2 < s.lowestBlockSeen then x.2 else s.lowestBlockSeen) := by
  by_cases hb : beforeRange fileBlockSize blockRange x.2 = true
  · rw [visitBundle_before env store fileBlockSize blockRange _ s x hb, if_pos hb, if_pos hb]
    exact ⟨rfl, rfl, rfl⟩
  · have hb' : beforeRange fileBlockSize blockRange x.2 = false := Bool.eq_false_iff.mpr hb
    rw [visitBundle_of_not_before env store fileBlockSize blockRange _ s x hb',
      recordSeen_listing, if_neg Bool.false_ne_true, if_neg hb, if_neg hb]
    obtain ⟨h1, h2, h3⟩ := reportMismatch_seen fileBlockSize x.2 { s with count := s.count + 1 }
    refine ⟨?_, ?_, ?_⟩
    · rw [(flushProgress_seen fileBlockSize x.2 _).1]
      exact h1
    · rw [(flushProgress_seen fileBlockSize x.2 _).2.1]
      show (if add64 x.2 fileBlockSize >
          (reportMismatch fileBlockSize x.2 { s with count := s.count + 1 }).highestBlockSeen
        then add64 x.2 fileBlockSize
        else (reportMismatch fileBlockSize x.2
          { s with count := s.count + 1 }).highestBlockSeen) = _
      rw [h2]
    · rw [(flushProgress_seen fileBlockSize x.2 _).2.2]
      show (if x.2 <
          (reportMismatch fileBlockSize x.2 { s with count := s.count + 1 }).lowestBlockSeen
        then x.2
        else (reportMismatch fileBlockSize x.2
          { s with count := s.count + 1 }).lowestBlockSeen) = _
      rw [h3]

theorem walk_listing_tfdb :
    ∀ (bundles : List (String × Nat)) (s : WalkState F),
      (Walk (visitBundle env store fileBlockSize blockRange PrintDetails.PrintNoDetails) s
        bundles).1.tfdb = s.tfdb
  | [], _ => rfl
  | x :: rest, s => by
    have h := (visitBundle_listing_seen env store fileBlockSize blockRange s x).1
    by_cases hsig : (visitBundle env store fileBlockSize blockRange
        PrintDetails.PrintNoDetails s x).2 = Signal.next
    · rw [Walk_cons_next _ _ _ _ hsig, walk_listing_tfdb rest, h]
    · rw [Walk_cons_halt _ _ _ _ hsig, h]

/-- Listing-only mode: `highestBlockSeen` ends as it started or as
`baseNum + fileBlockSize` of a processed bundle; with no processed bundle
`lowestBlockSeen` ends as it started. -/
theorem walk_listing_seen :
    ∀ (bundles : List (String × Nat)) (s : WalkState F),
      ((Walk (visitBundle env store fileBlockSize blockRange PrintDetails.PrintNoDetails) s
          bundles).1.highestBlockSeen = s.highestBlockSeen ∨
        ∃ b ∈ processedBases env store fileBlockSize blockRange PrintDetails.PrintNoDetails s
            bundles,
          (Walk (visitBundle env store fileBlockSize blockRange PrintDetails.PrintNoDetails) s
            bundles).1.highestBlockSeen = add64 b fileBlockSize) ∧
      (processedBases env store fileBlockSize blockRange PrintDetails.PrintNoDetails s
          bundles = [] →
        (Walk (visitBundle env store fileBlockSize blockRange PrintDetails.PrintNoDetails) s
          bundles).1.lowestBlockSeen = s.lowestBlockSeen)
  | [], _ => ⟨Or.inl rfl, fun _ => rfl⟩
  | x :: rest, s => by
    obtain ⟨-, hhigh, -⟩ := visitBundle_listing_seen env store fileBlockSize blockRange s x
    by_cases hbefore : beforeRange fileBlockSize blockRange x.2 = true
    · have hv := visitBundle_before env store fileBlockSize blockRange
        PrintDetails.PrintNoDetails s x hbefore
      rw [Walk_cons_next _ _ _ _ (by rw [hv]), hv,
        processedBases_cons_before env store fileBlockSize blockRange _ s x rest hbefore]
      exact walk_listing_seen rest _
    · have hbefore' : beforeRange fileBlockSize blockRange x.2 = false :=
        Bool.eq_false_iff.mpr hbefore
      rw [if_neg hbefore] at hhigh
      have hstep : (visitBundle env store fileBlockSize blockRange
            PrintDetails.PrintNoDetails s x).1.highestBlockSeen = s.highestBlockSeen ∨
          (visitBundle env store fileBlockSize blockRange
            PrintDetails.PrintNoDetails s x).1.highestBlockSeen = add64 x.2 fileBlockSize := by
        rw [hhigh]; split_ifs
        · exact Or.inr rfl
        · exact Or.inl rfl
      by_cases hsig : (visitBundle env store fileBlockSize blockRange
          PrintDetails.PrintNoDetails s x).2 = Signal.next
      · rw [Walk_cons_next _ _ _ _ hsig,
          processedBases_cons_next env store fileBlockSize blockRange _ s x rest hbefore' hsig]
        refine ⟨?_, fun h => absurd h (List.cons_ne_nil _ _)⟩
        rcases (walk_listing_seen rest (visitBundle env store fileBlockSize blockRange
          PrintDetails.PrintNoDetails s x).1).1 with h | ⟨b, hb, h⟩
        · rcases hstep with h' | h'
          · exact Or.inl (by rw [h, h'])
          · exact Or.inr ⟨x.2, List.mem_cons_self _ _, by rw [h, h']⟩
        · exact Or.inr ⟨b, List.mem_cons_of_mem _ hb, h⟩
      · rw [Walk_cons_halt _ _ _ _ hsig,
          processedBases_cons_halt env store fileBlockSize blockRange _ s x rest hbefore' hsig]
        refine ⟨?_, fun h => absurd h (List.cons_ne_nil _ _)⟩
        rcases hstep with h' | h'
        · exact Or.inl h'
        · exact Or.inr ⟨x.2, List.mem_singleton_self _, h'⟩

end listing

/-- Claim C2, the code at the stated input. With bundles of 100, range
`[0, 400)` and bases 0, 100, 300, the listing-only run reports covered
`[0,199]`, missing `[200,299]` and then covered `[300,400]`, not `[300,399]`,
and ends with holes found.  The same bundles under deep validation, where
`highestBlockSeen` is the number of a decoded block, end with covered
`[300,399]`. -/
theorem CheckMergedBlocks_hole_example :
    CheckMergedBlocks (listingEnv ["0000000000", "0000000100", "0000000300"]) "store" 100
        ⟨0, some 400⟩ PrintDetails.PrintNoDetails =
      ⟨[Line.checking "store", Line.covered ⟨0, some 199⟩, Line.missing ⟨200, some 299⟩,
        Line.covered ⟨300, some 400⟩, Line.blank, Line.summary, Line.holesFound], Result.ok⟩ ∧
    (CheckMergedBlocks (decodingEnv ["0000000000", "0000000100", "0000000300"]) "store" 100
        ⟨0, some 400⟩ PrintDetails.PrintStats).out.filter Line.isRange =
      [Line.covered ⟨0, some 199⟩, Line.missing ⟨200, some 299⟩,
        Line.covered ⟨300, some 399⟩] := by
  decide

/-- Claim C5, the code at the stated input. With bundles 0, 100, 200 of 100
blocks and range `[0, 300)`, the listing-only run takes `highestBlockSeen` as
`baseNum + fileBlockSize` and reports covered `[0,300]`, not `[0,299]`, with no
hole found.  The same bundles under deep validation end with covered
`[0,299]`. -/
theorem CheckMergedBlocks_end_to_end_example :
    CheckMergedBlocks (listingEnv ["0000000000", "0000000100", "0000000200"]) "store" 100
        ⟨0, some 300⟩ PrintDetails.PrintNoDetails =
      ⟨[Line.checking "store", Line.covered ⟨0, some 300⟩, Line.blank, Line.summary,
        Line.noHoleFound], Result.ok⟩ ∧
    (walkEnd (listingEnv []) (listingStore []) "store" 100 ⟨0, some 300⟩
        PrintDetails.PrintNoDetails
        [("0000000000", 0), ("0000000100", 100), ("0000000200", 200)]).highestBlockSeen
      = 200 + 100 ∧
    (CheckMergedBlocks (decodingEnv ["0000000000", "0000000100", "0000000200"]) "store" 100
        ⟨0, some 300⟩ PrintDetails.PrintStats).out.filter Line.isRange =
      [Line.covered ⟨0, some 299⟩] := by
  decide

theorem initState_out_not_range {F : Type} (env : Env F) (storeURL : String)
    (fileBlockSize : Nat) (blockRange : BlockRange) (printDetails : PrintDetails) :
    ∀ l ∈ (initState env storeURL fileBlockSize blockRange printDetails).out,
      l.isRange = false := by
  unfold initState
  refine not_range_append (not_range_singleton (x := Line.checking storeURL) rfl) ?_
  split_ifs
  · exact not_range_singleton (x := Line.detailed) rfl
  · exact fun l hl => absurd hl (List.not_mem_nil l)

theorem trailingLine_cases {F : Type} (s : WalkState F) :
    trailingLine s = Line.covered (NewClosedRange (toInt64 s.currentStartBlk) s.highestBlockSeen) ∨
      ∃ n, trailingLine s =
        Line.forkIssue (NewClosedRange (toInt64 s.currentStartBlk) s.highestBlockSeen) n := by
  unfold trailingLine
  split
  · split_ifs
    · exact Or.inr ⟨_, rfl⟩
    · exact Or.inl rfl
  · exact Or.inl rfl

theorem trailingLine_of_unlinked {F : Type} (s : WalkState F)
    (h : s.tfdb.lastLinkedBlock = none) :
    trailingLine s =
      Line.covered (NewClosedRange (toInt64 s.currentStartBlk) s.highestBlockSeen) := by
  unfold trailingLine
  rw [h]

theorem finish_ranges {F : Type} (env : Env F) (blockRange : BlockRange) (s : WalkState F)
    (hout : ∀ l ∈ s.out, l.isRange = false) :
    (finish env blockRange s).filter Line.isRange = [trailingLine s] := by
  have h1 : s.out.filter Line.isRange = [] :=
    List.filter_eq_nil_iff.mpr (fun l hl => by rw [hout l hl]; exact Bool.false_ne_true)
  have h2 : (trailingLine s).isRange = true := by
    rcases trailingLine_cases s with h | ⟨n, h⟩ <;> rw [h] <;> rfl
  have h3 : (if s.holeFound = true then Line.holesFound else Line.noHoleFound).isRange
      = false := by
    split_ifs <;> rfl
  have h4 : (if incompleteRange env.GetProtocolFirstStreamableBlock blockRange
        s.lowestBlockSeen s.highestBlockSeen = true then
      [Line.incomplete blockRange s.lowestBlockSeen s.highestBlockSeen] else []).filter
        Line.isRange = [] := by
    split_ifs <;> rfl
  unfold finish
  rw [List.filter_append, List.filter_append, List.filter_append, h1, h4,
    List.filter_cons_of_pos h2, List.filter_cons_of_neg (by exact Bool.false_ne_true),
    List.filter_cons_of_neg (by exact Bool.false_ne_true), List.filter_nil,
    List.filter_cons_of_neg (by rw [h3]; exact Bool.false_ne_true), List.filter_nil]
  rfl

/-- Counterexample to claim C6 as stated: bundles 100, 200, 300 of 100 blocks
are gap-free from `roundToBundleStart(150) = 100`, yet for the range
`[150, 400)` the single range reported is `[150, 400]`: it starts at the
range's start, not at the rounded start 100. -/
theorem CheckMergedBlocks_gap_free_not_from_rounded_start :
    [100, 200, 300] = (List.range 3).map
        (fun i => RoundToBundleStartBlock (toUint64 150) 100 + i * 100) ∧
      CheckMergedBlocks (listingEnv ["0000000100", "0000000200", "0000000300"]) "store" 100
          ⟨150, some 400⟩ PrintDetails.PrintNoDetails =
        ⟨[Line.checking "store", Line.covered ⟨150, some 400⟩, Line.blank, Line.summary,
          Line.noHoleFound], Result.ok⟩ ∧
      Line.covered (NewClosedRange (RoundToBundleStartBlock (toUint64 150) 100) 400) ∉
        (CheckMergedBlocks (listingEnv ["0000000100", "0000000200", "0000000300"]) "store" 100
          ⟨150, some 400⟩ PrintDetails.PrintNoDetails).out := by
  decide

/-- Claim C6, amended. For a resolved range and a gap-free, strictly increasing
sequence of fewer than 10,000 aligned bundles that begins at
`roundToBundleStart(range.start)`, the walk prints no missing-range line (no
range line at all) and finds no hole, and the report holds exactly one range
line, the trailing one, for the range `[range.start, highestBlockSeen]`: its
start is the start of the range, not rounded down.  The line is a covered range
in listing-only mode, and a covered or a fork-issue range under deep
validation. -/
theorem CheckMergedBlocks_gap_free_coverage {F : Type} (env : Env F) (store : Store)
    (storeURL : String) (fileBlockSize : Nat) (blockRange : BlockRange)
    (printDetails : PrintDetails) (bundles : List (String × Nat))
    (hsize : 0 < fileBlockSize) (hfbs : fileBlockSize < 2 ^ 64)
    (hres : 0 ≤ blockRange.Start) (h63 : blockRange.Start < 2 ^ 63)
    (hlen : bundles.length < 10000)
    (hgap : bundles.map Prod.snd = (List.range bundles.length).map
      (fun i => RoundToBundleStartBlock (toUint64 blockRange.Start) fileBlockSize
        + i * fileBlockSize))
    (hbound : ∀ b ∈ bundles.map Prod.snd, b < 2 ^ 32) :
    (∀ l ∈ (walkEnd env store storeURL fileBlockSize blockRange printDetails bundles).out,
        l.isRange = false) ∧
      (walkEnd env store storeURL fileBlockSize blockRange printDetails bundles).holeFound
        = false ∧
      (finish env blockRange
          (walkEnd env store storeURL fileBlockSize blockRange printDetails bundles)).filter
        Line.isRange =
        [trailingLine (walkEnd env store storeURL fileBlockSize blockRange printDetails
          bundles)] ∧
      (trailingLine (walkEnd env store storeURL fileBlockSize blockRange printDetails bundles)
          = Line.covered (NewClosedRange blockRange.Start
              (walkEnd env store storeURL fileBlockSize blockRange printDetails
                bundles).highestBlockSeen) ∨
        ∃ n, trailingLine (walkEnd env store storeURL fileBlockSize blockRange printDetails
            bundles)
          = Line.forkIssue (NewClosedRange blockRange.Start
              (walkEnd env store storeURL fileBlockSize blockRange printDetails
                bundles).highestBlockSeen) n) ∧
      (printDetails = PrintDetails.PrintNoDetails →
        trailingLine (walkEnd env store storeURL fileBlockSize blockRange printDetails bundles)
          = Line.covered (NewClosedRange blockRange.Start
              (walkEnd env store storeURL fileBlockSize blockRange printDetails
                bundles).highestBlockSeen)) := by
  obtain ⟨h1, h2, h3⟩ := walk_gap_free env store fileBlockSize blockRange printDetails hsize
    hfbs bundles (initState env storeURL fileBlockSize blockRange printDetails) hgap
    (by show 0 + bundles.length < 10000; omega) hbound (RoundToBundleStartBlock_dvd _ _)
    (le_refl _) (initState_out_not_range env storeURL fileBlockSize blockRange printDetails)
  have hcur : toInt64 (walkEnd env store storeURL fileBlockSize blockRange printDetails
      bundles).currentStartBlk = blockRange.Start := by
    unfold walkEnd
    rw [h2]
    exact toInt64_toUint64 hres h63
  refine ⟨h1, h3, finish_ranges env blockRange _ h1, ?_, ?_⟩
  · rw [← hcur]
    exact trailingLine_cases _
  · intro hpd
    subst hpd
    rw [← hcur]
    apply trailingLine_of_unlinked
    unfold walkEnd
    rw [walk_listing_tfdb]
    rfl

/-- Witness for claim C6: bundles 100, 200, 300 of 100 blocks and the range
`[150, 400)` in listing-only mode. -/
theorem CheckMergedBlocks_gap_free_coverage_witness :
    trailingLine (walkEnd (listingEnv []) (listingStore []) "store" 100 ⟨150, some 400⟩
        PrintDetails.PrintNoDetails
        [("0000000100", 100), ("0000000200", 200), ("0000000300", 300)])
      = Line.covered (NewClosedRange 150
          (walkEnd (listingEnv []) (listingStore []) "store" 100 ⟨150, some 400⟩
            PrintDetails.PrintNoDetails
            [("0000000100", 100), ("0000000200", 200), ("0000000300", 300)]).highestBlockSeen) :=
  (CheckMergedBlocks_gap_free_coverage (listingEnv []) (listingStore []) "store" 100
    ⟨150, some 400⟩ PrintDetails.PrintNoDetails
    [("0000000100", 100), ("0000000200", 200), ("0000000300", 300)]
    (by decide) (by decide) (by decide) (by decide) (by decide) (by decide)
    (by decide)).2.2.2.2 rfl

/-- Counterexample to claim C3 as stated: with bundles of 100, range `[0, 301)`
and bundles 0 and 500 listed, the processed bundles are 0 and 500, neither
contains block 300 (`stop - 1`), and the summary holds no incomplete-range
warning: `highestBlockSeen` is 600, not below 300. -/
theorem CheckMergedBlocks_no_incomplete_warning_past_stop :
    processedBases (listingEnv ["0000000000", "0000000500"])
        (listingStore ["0000000000", "0000000500"]) 100 ⟨0, some 301⟩
        PrintDetails.PrintNoDetails
        (initState (listingEnv ["0000000000", "0000000500"]) "store" 100 ⟨0, some 301⟩
          PrintDetails.PrintNoDetails)
        (["0000000000", "0000000500"].filterMap parseKey) = [0, 500] ∧
      (∀ b ∈ [0, 500], ¬ (b ≤ 301 - 1 ∧ 301 - 1 ≤ b + 100 - 1)) ∧
      CheckMergedBlocks (listingEnv ["0000000000", "0000000500"]) "store" 100 ⟨0, some 301⟩
          PrintDetails.PrintNoDetails =
        ⟨[Line.checking "store", Line.covered ⟨0, some 99⟩, Line.missing ⟨100, some 499⟩,
          Line.covered ⟨500, some 600⟩, Line.blank, Line.summary, Line.holesFound],
          Result.ok⟩ := by
  decide

/-- Claim C3, amended. For a resolved closed range `[start, stop)` checked in
listing-only mode (the first streamable block being below `MaxUint64`): if every
processed bundle base `b` has `b + fileBlockSize < stop - 1`, then the summary
contains the incomplete-range warning. -/
theorem CheckMergedBlocks_incomplete_when_short {F : Type} (env : Env F) (store : Store)
    (storeURL : String) (fileBlockSize : Nat) (start : Int) (stop : Nat)
    (bundles : List (String × Nat))
    (hres : 0 ≤ start) (h63 : start < 2 ^ 63)
    (hfirst : env.GetProtocolFirstStreamableBlock < MaxUint64)
    (hshort : ∀ b ∈ processedBases env store fileBlockSize ⟨start, some stop⟩
        PrintDetails.PrintNoDetails
        (initState env storeURL fileBlockSize ⟨start, some stop⟩ PrintDetails.PrintNoDetails)
        bundles, add64 b fileBlockSize < sub64 stop 1) :
    Line.incomplete ⟨start, some stop⟩
        (walkEnd env store storeURL fileBlockSize ⟨start, some stop⟩
          PrintDetails.PrintNoDetails bundles).lowestBlockSeen
        (walkEnd env store storeURL fileBlockSize ⟨start, some stop⟩
          PrintDetails.PrintNoDetails bundles).highestBlockSeen ∈
      finish env ⟨start, some stop⟩
        (walkEnd env store storeURL fileBlockSize ⟨start, some stop⟩
          PrintDetails.PrintNoDetails bundles) := by
  have hseen := walk_listing_seen env store fileBlockSize ⟨start, some stop⟩ bundles
    (initState env storeURL fileBlockSize ⟨start, some stop⟩ PrintDetails.PrintNoDetails)
  have hinc : incompleteRange env.GetProtocolFirstStreamableBlock ⟨start, some stop⟩
      (walkEnd env store storeURL fileBlockSize ⟨start, some stop⟩
        PrintDetails.PrintNoDetails bundles).lowestBlockSeen
      (walkEnd env store storeURL fileBlockSize ⟨start, some stop⟩
        PrintDetails.PrintNoDetails bundles).highestBlockSeen = true := by
    unfold incompleteRange
    rw [Option.any_some, Bool.or_eq_true, Bool.and_eq_true, decide_eq_true_iff,
      decide_eq_true_iff, decide_eq_true_iff]
    unfold walkEnd
    cases hp : processedBases env store fileBlockSize ⟨start, some stop⟩
        PrintDetails.PrintNoDetails
        (initState env storeURL fileBlockSize ⟨start, some stop⟩ PrintDetails.PrintNoDetails)
        bundles with
    | nil =>
      right
      rw [hseen.2 hp]
      have hlow : (initState env storeURL fileBlockSize ⟨start, some stop⟩
          PrintDetails.PrintNoDetails).lowestBlockSeen = MaxUint64 := rfl
      rw [hlow]
      refine ⟨?_, hfirst⟩
      show MaxUint64 > toUint64 start
      rw [toUint64_of_nonneg hres h63]
      have h1 := Int.toNat_of_nonneg hres
      have h2 : MaxUint64 = 2 ^ 64 - 1 := rfl
      omega
    | cons b0 rest =>
      left
      have hb0 := hshort b0 (by rw [hp]; exact List.mem_cons_self _ _)
      rcases hseen.1 with h | ⟨b, hb, h⟩
      · rw [h]
        have hhigh : (initState env storeURL fileBlockSize ⟨start, some stop⟩
            PrintDetails.PrintNoDetails).highestBlockSeen = 0 := rfl
        rw [hhigh]
        omega
      · rw [h]
        exact hshort b hb
  unfold finish
  rw [if_pos hinc]
  exact List.mem_append.mpr (Or.inl (List.mem_append.mpr (Or.inr (List.mem_singleton_self _))))

/-- Witness for claim C3: bundles 0 and 100 of 100 blocks in the range
`[0, 400)`; both have `b + 100 < 399`. -/
theorem CheckMergedBlocks_incomplete_when_short_witness :
    Line.incomplete ⟨0, some 400⟩
        (walkEnd (listingEnv []) (listingStore []) "store" 100 ⟨0, some 400⟩
          PrintDetails.PrintNoDetails
          [("0000000000", 0), ("0000000100", 100)]).lowestBlockSeen
        (walkEnd (listingEnv []) (listingStore []) "store" 100 ⟨0, some 400⟩
          PrintDetails.PrintNoDetails
          [("0000000000", 0), ("0000000100", 100)]).highestBlockSeen ∈
      finish (listingEnv []) ⟨0, some 400⟩
        (walkEnd (listingEnv []) (listingStore []) "store" 100 ⟨0, some 400⟩
          PrintDetails.PrintNoDetails [("0000000000", 0), ("0000000100", 100)]) :=
  CheckMergedBlocks_incomplete_when_short (listingEnv []) (listingStore []) "store" 100 0 400
    [("0000000000", 0), ("0000000100", 100)] (by decide) (by decide) (by decide) (by decide)

/-- Claim C11, the code at a failing input. With bundles of 100 and range
`[150, 500)`, the bundle 0 is ignored and the first processed bundle, 300,
differs from the expected base 100: since `count` already counts the ignored
bundle, the callback prints the covered range `[150, 99]` before the missing
range `[100, 299]`. -/
theorem CheckMergedBlocks_first_processed_after_ignored :
    processedBases (listingEnv ["0000000000", "0000000300"])
        (listingStore ["0000000000", "0000000300"]) 100 ⟨150, some 500⟩
        PrintDetails.PrintNoDetails
        (initState (listingEnv ["0000000000", "0000000300"]) "store" 100 ⟨150, some 500⟩
          PrintDetails.PrintNoDetails)
        (["0000000000", "0000000300"].filterMap parseKey) = [300] ∧
      CheckMergedBlocks (listingEnv ["0000000000", "0000000300"]) "store" 100 ⟨150, some 500⟩
          PrintDetails.PrintNoDetails =
        ⟨[Line.checking "store", Line.covered ⟨150, some 99⟩, Line.missing ⟨100, some 299⟩,
          Line.covered ⟨300, some 400⟩, Line.blank, Line.summary,
          Line.incomplete ⟨150, some 500⟩ 300 400, Line.holesFound], Result.ok⟩ ∧
      CheckMergedBlocks (listingEnv ["0000000300"]) "store" 100 ⟨150, some 500⟩
          PrintDetails.PrintNoDetails =
        ⟨[Line.checking "store", Line.missing ⟨100, some 299⟩,
          Line.covered ⟨300, some 400⟩, Line.blank, Line.summary,
          Line.incomplete ⟨150, some 500⟩ 300 400, Line.holesFound], Result.ok⟩ := by
  decide

/-- Claim C12, the code at a failing input. For the closed range `[0, 150)` a
segment that decodes to blocks 149, 150 and 151 has block 150 treated as in
range: it is counted, raises the segment's highest block number to 150 and is
handed to the fork tracker and to the block printer.  Only block 151, above
`stop`, ends the loop. -/
theorem validateBlockSegment_takes_block_at_stop :
    (validateBlockSegment (decodingEnv [])
        (streamStore [blockAt 149, blockAt 150, blockAt 151]) "0000000100" 100
        ⟨0, some 150⟩ PrintDetails.PrintStats ⟨(), none, none, 0⟩).out
      = [Line.blockPrinter (blockAt 149), Line.blockPrinter (blockAt 150)] ∧
    (validateBlockSegment (decodingEnv [])
        (streamStore [blockAt 149, blockAt 150, blockAt 151]) "0000000100" 100
        ⟨0, some 150⟩ PrintDetails.PrintStats ⟨(), none, none, 0⟩).highestBlockSeen = 150 ∧
    (validateBlockSegment (decodingEnv [])
        (streamStore [blockAt 149, blockAt 150, blockAt 151]) "0000000100" 100
        ⟨0, some 150⟩ PrintDetails.PrintStats ⟨(), none, none, 0⟩).seenBlockCount = 2 ∧
    (validateBlockSegment (decodingEnv [])
        (streamStore [blockAt 149, blockAt 150, blockAt 151]) "0000000100" 100
        ⟨0, some 150⟩ PrintDetails.PrintStats ⟨(), none, none, 0⟩).tfdb.lastLinkedBlock
      = some (blockAt 150) := by
  decide

/-- Claim C15. Called with a range that is not resolved, `CheckMergedBlocks`
returns the unresolved-range error right after its opening lines: the result
does not depend on the store or on anything else in the environment, and holds
no range line and no summary.  With a resolved range that error is never
returned. -/
theorem CheckMergedBlocks_unresolved_range {F : Type} (env : Env F) (storeURL : String)
    (fileBlockSize : Nat) (blockRange : BlockRange) (printDetails : PrintDetails) :
    (blockRange.IsResolved = false →
      CheckMergedBlocks env storeURL fileBlockSize blockRange printDetails =
        ⟨[Line.checking storeURL] ++
          (if printDetails ≠ PrintDetails.PrintNoDetails then [Line.detailed] else []),
          Result.unresolvedRange⟩) ∧
    (blockRange.IsResolved = true →
      (CheckMergedBlocks env storeURL fileBlockSize blockRange printDetails).result
        ≠ Result.unresolvedRange) := by
  constructor
  · intro h
    unfold CheckMergedBlocks
    simp only
    rw [if_pos (by rw [h]; rfl)]
    rfl
  · intro h
    unfold CheckMergedBlocks
    simp only
    rw [if_neg (by rw [h]; exact Bool.false_ne_true)]
    split
    · exact fun hh => Result.noConfusion hh
    · split
      · exact fun hh => Result.noConfusion hh
      · split
        · exact fun hh => Result.noConfusion hh
        · exact fun hh => Result.noConfusion hh
        · split_ifs <;> exact fun hh => Result.noConfusion hh

/-- Witness for claim C15: the range starting at -1 is not resolved. -/
theorem CheckMergedBlocks_unresolved_range_witness :
    CheckMergedBlocks (listingEnv ["0000000000"]) "store" 100 ⟨-1, some 100⟩
        PrintDetails.PrintStats =
      ⟨[Line.checking "store"] ++
        (if PrintDetails.PrintStats ≠ PrintDetails.PrintNoDetails then [Line.detailed]
          else []), Result.unresolvedRange⟩ :=
  (CheckMergedBlocks_unresolved_range (listingEnv ["0000000000"]) "store" 100 ⟨-1, some 100⟩
    PrintDetails.PrintStats).1 (by decide)

/-- Claim C16, the code at a failing input. The key `4294967300` holds a run of
ten digits that encodes 4294967300, but `ParseUint` with bit size 32 hands the
callback the base 4294967295.  Keys below `2^32` are read exactly, and a key with
no run of ten digits leaves every variable as it was. -/
theorem parseKey_clamps_to_32_bits :
    numberRegex "4294967300".data = some "4294967300".data ∧
      digitsValue "4294967300".data = 4294967300 ∧
      parseKey "4294967300" = some ("4294967300", 4294967295) ∧
      parseKey "0000000300.dbin.zst" = some ("0000000300.dbin.zst", 300) ∧
      (∀ {F : Type} (env : Env F) (store : Store) (fileBlockSize : Nat)
          (blockRange : BlockRange) (printDetails : PrintDetails) (s : WalkState F)
          (filename : String), numberRegex filename.data = none →
        walkFn env store fileBlockSize blockRange printDetails s filename
          = (s, Signal.next)) := by
  refine ⟨by decide, by decide, by decide, by decide, ?_⟩
  intro F env store fileBlockSize blockRange printDetails s filename h
  unfold walkFn parseKey
  rw [h]
  rfl

theorem linkBlock_keeps_count_iff_first {F : Type} (db : ForkDB F) (t : trackedForkDB F)
    (block : Block) :
    (0 < (linkBlock db t block).tfdb.unlinkableSegmentCount ↔
      (linkBlock db t block).tfdb.firstUnlinkableBlock ≠ none) := by
  rw [linkBlock_tfdb]
  by_cases h : db.ReversibleSegment (linkedForkDB db t block) block = true
  · rw [if_pos h]
    exact ⟨fun h0 => absurd h0 (lt_irrefl 0), fun h0 => absurd rfl h0⟩
  · rw [if_neg h]
    refine ⟨fun _ => ?_, fun _ => Nat.succ_pos _⟩
    show (if t.firstUnlinkableBlock.isNone = true then some block
      else t.firstUnlinkableBlock) ≠ none
    cases hf : t.firstUnlinkableBlock with
    | none => exact fun hh => Option.noConfusion hh
    | some b => exact fun hh => Option.noConfusion hh

theorem linkBlock_keeps_lastLinked {F : Type} (db : ForkDB F) (t : trackedForkDB F)
    (block : Block) (h : t.lastLinkedBlock ≠ none) :
    (linkBlock db t block).tfdb.lastLinkedBlock ≠ none := by
  rw [linkBlock_tfdb]
  by_cases hr : db.ReversibleSegment (linkedForkDB db t block) block = true
  · rw [if_pos hr]
    exact fun hh => Option.noConfusion hh
  · rw [if_neg hr]
    exact h

theorem linkBlock_no_panic {F : Type} (db : ForkDB F) (t : trackedForkDB F) (block : Block)
    (h : t.lastLinkedBlock ≠ none ∨
      db.ReversibleSegment (linkedForkDB db t block) block = true) :
    (linkBlock db t block).panicked = false := by
  unfold linkBlock
  simp only
  by_cases hr : db.ReversibleSegment (linkedForkDB db t block) block = true
  · rw [if_pos hr]
  · rw [if_neg hr]
    have hl : t.lastLinkedBlock ≠ none := by
      rcases h with h | h
      · exact h
      · exact absurd h hr
    cases hlast : t.lastLinkedBlock with
    | none => exact absurd hlast hl
    | some l =>
      cases hf : t.firstUnlinkableBlock with
      | none =>
        rw [Option.isNone_none, if_pos rfl]
        split_ifs <;> rfl
      | some u =>
        rw [Option.isNone_some, if_neg Bool.false_ne_true]
        split_ifs <;> rfl

theorem linkAll_append {F : Type} (db : ForkDB F) :
    ∀ (pre : List Block) (t : trackedForkDB F) (post : List Block),
      linkAll db t (pre ++ post) = linkAll db (linkAll db t pre) post
  | [], _, _ => rfl
  | b :: pre, t, post => by
    show linkAll db (linkBlock db t b).tfdb (pre ++ post) = _
    rw [linkAll_append db pre]
    rfl

theorem linkAll_invariant {F : Type} (db : ForkDB F) :
    ∀ (blocks : List Block) (t : trackedForkDB F),
      ((0 < t.unlinkableSegmentCount ↔ t.firstUnlinkableBlock ≠ none) →
        (0 < (linkAll db t blocks).unlinkableSegmentCount ↔
          (linkAll db t blocks).firstUnlinkableBlock ≠ none)) ∧
      (t.lastLinkedBlock ≠ none → (linkAll db t blocks).lastLinkedBlock ≠ none)
  | [], _ => ⟨fun h => h, fun h => h⟩
  | b :: rest, t => by
    have ih := linkAll_invariant db rest (linkBlock db t b).tfdb
    exact ⟨fun _ => ih.1 (linkBlock_keeps_count_iff_first db t b),
      fun h => ih.2 (linkBlock_keeps_lastLinked db t b h)⟩

section segment

variable {F : Type} (env : Env F) (segment : String) (fileBlockSize : Nat)
  (blockRange : BlockRange) (printDetails : PrintDetails) (endsWithError : Bool)

theorem readBlocks_nil_tfdb (s : SegmentState F) :
    (readBlocks env segment fileBlockSize blockRange printDetails endsWithError [] s).tfdb
        = s.tfdb ∧
      (readBlocks env segment fileBlockSize blockRange printDetails endsWithError [] s).panicked
        = s.panicked := by
  unfold readBlocks
  split_ifs <;> exact ⟨rfl, rfl⟩

theorem readBlocks_cons_tracked (block : Block) (rest : List Block) (s : SegmentState F)
    (h1 : ¬ block.Number < toUint64 blockRange.Start)
    (h2 : blockRange.Stop.any (fun stop => decide (block.Number > stop)) = false)
    (hp : (linkBlock env.fdb s.tfdb block).panicked = false) :
    ∃ s' : SegmentState F, s'.tfdb = (linkBlock env.fdb s.tfdb block).tfdb ∧
      s'.panicked = s.panicked ∧
      readBlocks env segment fileBlockSize blockRange printDetails endsWithError
          (block :: rest) s
        = readBlocks env segment fileBlockSize blockRange printDetails endsWithError rest s' := by
  simp only [readBlocks, h1, h2, hp, if_false, Bool.false_eq_true]
  refine ⟨_, ?_, ?_, rfl⟩ <;> rfl

/-- When no pass through the fork-linkability step panics, the loop of
`validateBlockSegment` does not panic and leaves the tracker as `linkAll` over
the tracked blocks does. -/
theorem readBlocks_tracks :
    ∀ (blocks : List Block) (s : SegmentState F), s.panicked = false →
      (∀ pre x post, trackedBlocks blockRange blocks = pre ++ x :: post →
        (linkBlock env.fdb (linkAll env.fdb s.tfdb pre) x).panicked = false) →
      (readBlocks env segment fileBlockSize blockRange printDetails endsWithError
          blocks s).panicked = false ∧
        (readBlocks env segment fileBlockSize blockRange printDetails endsWithError
          blocks s).tfdb = linkAll env.fdb s.tfdb (trackedBlocks blockRange blocks)
  | [], s, hs, _ => by
    obtain ⟨h1, h2⟩ := readBlocks_nil_tfdb env segment fileBlockSize blockRange printDetails
      endsWithError s
    rw [h1, h2]
    exact ⟨hs, rfl⟩
  | block :: rest, s, hs, hall => by
    by_cases h1 : block.Number < toUint64 blockRange.Start
    · have htb : trackedBlocks blockRange (block :: rest) = trackedBlocks blockRange rest := by
        rw [trackedBlocks, if_pos h1]
      have hrb : readBlocks env segment fileBlockSize blockRange printDetails endsWithError
          (block :: rest) s
          = readBlocks env segment fileBlockSize blockRange printDetails endsWithError
              rest s := by
        rw [readBlocks, if_pos h1]
      rw [htb] at hall ⊢
      rw [hrb]
      exact readBlocks_tracks rest s hs hall
    · by_cases h2 : blockRange.Stop.any (fun stop => decide (block.Number > stop)) = true
      · have htb : trackedBlocks blockRange (block :: rest) = [] := by
          rw [trackedBlocks, if_neg h1, if_pos h2]
        have hrb : readBlocks env segment fileBlockSize blockRange printDetails endsWithError
            (block :: rest) s = s := by
          rw [readBlocks, if_neg h1, if_pos h2]
        rw [htb, hrb]
        exact ⟨hs, rfl⟩
      · have h2' : blockRange.Stop.any (fun stop => decide (block.Number > stop)) = false :=
          Bool.eq_false_iff.mpr h2
        have htb : trackedBlocks blockRange (block :: rest)
            = block :: trackedBlocks blockRange rest := by
          rw [trackedBlocks, if_neg h1, if_neg h2]
        rw [htb] at hall ⊢
        have hp := hall [] block (trackedBlocks blockRange rest) rfl
        obtain ⟨s', ht, hpan, heq⟩ := readBlocks_cons_tracked env segment fileBlockSize
          blockRange printDetails endsWithError block rest s h1 h2' hp
        rw [heq]
        have ih := readBlocks_tracks rest s' (by rw [hpan]; exact hs)
          (fun pre x post hsplit => by
            rw [ht]
            exact hall (block :: pre) x post (by rw [hsplit]; rfl))
        rw [ht] at ih
        exact ih

end segment

/-- Claim C18. For the tracker `CheckMergedBlocks` creates and every sequence
of blocks handed to the fork-linkability step: after each block,
`unlinkableSegmentCount > 0` iff `firstUnlinkableBlock` is set; if the first
block resolves, `lastLinkedBlock` is set after every block, and no pass
through the step reads an unset block (in particular not when the large-gap
warning fires, where both blocks are set).  The loop of `validateBlockSegment`
then runs without a panic and leaves the tracker as the step does over the
blocks it tracks. -/
theorem linkAll_tracker_invariant {F : Type} (db : ForkDB F) (blocks : List Block) :
    (0 < (linkAll db (newTracker db) blocks).unlinkableSegmentCount ↔
      (linkAll db (newTracker db) blocks).firstUnlinkableBlock ≠ none) ∧
    (∀ (first : Block) (rest : List Block), blocks = first :: rest →
      db.ReversibleSegment (linkedForkDB db (newTracker db) first) first = true →
      (linkAll db (newTracker db) blocks).lastLinkedBlock ≠ none ∧
      (∀ pre x post, blocks = pre ++ x :: post →
        (linkBlock db (linkAll db (newTracker db) pre) x).panicked = false ∧
        ((linkBlock db (linkAll db (newTracker db) pre) x).tfdb.unlinkableSegmentCount > 99 →
          (linkBlock db (linkAll db (newTracker db) pre) x).tfdb.lastLinkedBlock ≠ none ∧
          (linkBlock db (linkAll db (newTracker db) pre) x).tfdb.firstUnlinkableBlock
            ≠ none))) ∧
    (∀ (env : Env F) (segment : String) (fileBlockSize : Nat) (blockRange : BlockRange)
        (printDetails : PrintDetails) (endsWithError : Bool) (stream : List Block)
        (s : SegmentState F), env.fdb = db → s.tfdb = newTracker db → s.panicked = false →
      trackedBlocks blockRange stream = blocks →
      (∀ (first : Block) (rest : List Block), blocks = first :: rest →
        db.ReversibleSegment (linkedForkDB db (newTracker db) first) first = true) →
      (readBlocks env segment fileBlockSize blockRange printDetails endsWithError
          stream s).panicked = false ∧
        (readBlocks env segment fileBlockSize blockRange printDetails endsWithError
          stream s).tfdb = linkAll db (newTracker db) blocks) := by
  have hinv0 : (0 < (newTracker db).unlinkableSegmentCount ↔
      (newTracker db).firstUnlinkableBlock ≠ none) :=
    ⟨fun h => absurd h (lt_irrefl 0), fun h => absurd rfl h⟩
  have hsteps : ∀ (first : Block) (rest : List Block), blocks = first :: rest →
      db.ReversibleSegment (linkedForkDB db (newTracker db) first) first = true →
      ∀ pre x post, blocks = pre ++ x :: post →
        (linkBlock db (linkAll db (newTracker db) pre) x).panicked = false ∧
        (linkBlock db (linkAll db (newTracker db) pre) x).tfdb.lastLinkedBlock ≠ none := by
    intro first rest hb hres pre x post hsplit
    cases pre with
    | nil =>
      have hx : x = first := by
        rw [hb] at hsplit
        exact (List.cons.inj hsplit).1.symm
      subst hx
      refine ⟨linkBlock_no_panic db _ x (Or.inr hres), ?_⟩
      show (linkBlock db (newTracker db) x).tfdb.lastLinkedBlock ≠ none
      rw [linkBlock_tfdb, if_pos hres]
      exact fun hh => Option.noConfusion hh
    | cons p pre' =>
      have hp : p = first := by
        rw [hb] at hsplit
        exact (List.cons.inj hsplit).1.symm
      subst hp
      have h1 : (linkBlock db (newTracker db) p).tfdb.lastLinkedBlock ≠ none := by
        rw [linkBlock_tfdb, if_pos hres]
        exact fun hh => Option.noConfusion hh
      have h2 : (linkAll db (newTracker db) (p :: pre')).lastLinkedBlock ≠ none :=
        (linkAll_invariant db pre' (linkBlock db (newTracker db) p).tfdb).2 h1
      exact ⟨linkBlock_no_panic db _ x (Or.inl h2), linkBlock_keeps_lastLinked db _ x h2⟩
  refine ⟨(linkAll_invariant db blocks (newTracker db)).1 hinv0, ?_, ?_⟩
  · intro first rest hb hres
    refine ⟨?_, ?_⟩
    · rw [hb]
      show (linkAll db (linkBlock db (newTracker db) first).tfdb rest).lastLinkedBlock ≠ none
      apply (linkAll_invariant db rest _).2
      rw [linkBlock_tfdb, if_pos hres]
      exact fun hh => Option.noConfusion hh
    · intro pre x post hsplit
      obtain ⟨hpan, hlast⟩ := hsteps first rest hb hres pre x post hsplit
      refine ⟨hpan, fun hcount => ⟨hlast, ?_⟩⟩
      exact (linkBlock_keeps_count_iff_first db _ x).mp (lt_of_le_of_lt (Nat.zero_le 99) hcount)
  · intro env segment fileBlockSize blockRange printDetails endsWithError stream s henv ht hs
      htracked hfirst
    subst henv
    have hall : ∀ pre x post, trackedBlocks blockRange stream = pre ++ x :: post →
        (linkBlock env.fdb (linkAll env.fdb s.tfdb pre) x).panicked = false := by
      intro pre x post hsplit
      rw [ht]
      rw [htracked] at hsplit
      cases hblocks : blocks with
      | nil =>
        rw [hblocks] at hsplit
        exact absurd hsplit (by
          intro hh
          have := congrArg List.length hh
          rw [List.length_nil, List.length_append, List.length_cons] at this
          omega)
      | cons first rest =>
        exact (hsteps first rest hblocks (hfirst first rest hblocks) pre x post hsplit).1
    have := readBlocks_tracks env segment fileBlockSize blockRange printDetails endsWithError
      stream s hs hall
    rw [ht, htracked] at this
    exact this

/-- Witness for claim C18: with a fork database in which every block resolves,
two blocks leave `lastLinkedBlock` set. -/
theorem linkAll_tracker_invariant_witness :
    (linkAll linkingForkDB (newTracker linkingForkDB)
        [blockAt 1, blockAt 2]).lastLinkedBlock ≠ none :=
  ((linkAll_tracker_invariant linkingForkDB [blockAt 1, blockAt 2]).2.1 (blockAt 1)
    [blockAt 2] rfl rfl).1

theorem Walk_next_cons {σ α : Type} (f : σ → α → σ × Signal) (s : σ) (k : α) (ks : List α)
    (h : (Walk f s (k :: ks)).2 = Signal.next) : (f s k).2 = Signal.next := by
  by_contra hne
  rw [Walk_cons_halt f s k ks hne] at h
  exact hne h

theorem Walk_append {σ α : Type} (f : σ → α → σ × Signal) :
    ∀ (l1 : List α) (s : σ) (l2 : List α), (Walk f s l1).2 = Signal.next →
      Walk f s (l1 ++ l2) = Walk f (Walk f s l1).1 l2
  | [], _, _, _ => rfl
  | k :: ks, s, l2, h => by
    have hk := Walk_next_cons f s k ks h
    rw [Walk_cons_next f s k ks hk] at h ⊢
    rw [List.cons_append, Walk_cons_next f s k (ks ++ l2) hk]
    exact Walk_append f ks _ l2 h

section walk

variable {F : Type} (env : Env F) (store : Store) (fileBlockSize : Nat)
  (blockRange : BlockRange) (printDetails : PrintDetails)

theorem visitBundle_count (s : WalkState F) (x : String × Nat) :
    (visitBundle env store fileBlockSize blockRange printDetails s x).1.count = s.count + 1 := by
  by_cases hb : beforeRange fileBlockSize blockRange x.2 = true
  · rw [visitBundle_before env store fileBlockSize blockRange printDetails s x hb]
  · exact (visitBundle_processed env store fileBlockSize blockRange printDetails s x
      (Bool.eq_false_iff.mpr hb)).2.2

/-- While the walk goes on, `count` is the number of bundles the callback has
been called on, ignored ones included. -/
theorem walk_count :
    ∀ (bundles : List (String × Nat)) (s : WalkState F),
      (Walk (visitBundle env store fileBlockSize blockRange printDetails) s bundles).2
        = Signal.next →
      (Walk (visitBundle env store fileBlockSize blockRange printDetails) s bundles).1.count
        = s.count + bundles.length
  | [], _, _ => rfl
  | x :: rest, s, h => by
    have hx := Walk_next_cons _ s x rest h
    rw [Walk_cons_next _ s x rest hx] at h ⊢
    rw [walk_count rest _ h, visitBundle_count, List.length_cons]
    omega

/-- What holds of the expected base while the walk goes on over a strictly
increasing sequence of aligned bases: it is aligned, not below the rounded
start, at least one bundle size once a bundle has been seen, and not above any
base still to come that is not ignored. -/
theorem walk_prefix_invariant (hsize : 0 < fileBlockSize) (hfbs : fileBlockSize < 2 ^ 64) :
    ∀ (pre : List (String × Nat)) (s : WalkState F) (rest : List (String × Nat)),
      ((pre ++ rest).map Prod.snd).Pairwise (· < ·) →
      (∀ b ∈ (pre ++ rest).map Prod.snd, fileBlockSize ∣ b) →
      (∀ b ∈ (pre ++ rest).map Prod.snd, b < 2 ^ 32) →
      fileBlockSize ∣ s.expected →
      RoundToBundleStartBlock (toUint64 blockRange.Start) fileBlockSize ≤ s.expected →
      (1 ≤ s.count → fileBlockSize ≤ s.expected) →
      (∀ b ∈ (pre ++ rest).map Prod.snd,
        b < RoundToBundleStartBlock (toUint64 blockRange.Start) fileBlockSize ∨
          s.expected ≤ b) →
      (Walk (visitBundle env store fileBlockSize blockRange printDetails) s pre).2
        = Signal.next →
      fileBlockSize ∣ (Walk (visitBundle env store fileBlockSize blockRange printDetails) s
          pre).1.expected ∧
        RoundToBundleStartBlock (toUint64 blockRange.Start) fileBlockSize ≤
          (Walk (visitBundle env store fileBlockSize blockRange printDetails) s
            pre).1.expected ∧
        (1 ≤ (Walk (visitBundle env store fileBlockSize blockRange printDetails) s
            pre).1.count →
          fileBlockSize ≤ (Walk (visitBundle env store fileBlockSize blockRange printDetails) s
            pre).1.expected) ∧
        (∀ b ∈ rest.map Prod.snd,
          b < RoundToBundleStartBlock (toUint64 blockRange.Start) fileBlockSize ∨
            (Walk (visitBundle env store fileBlockSize blockRange printDetails) s
              pre).1.expected ≤ b)
  | [], s, rest, _, _, _, hdvd, hlo, hcnt, hnext, _ => ⟨hdvd, hlo, hcnt, hnext⟩
  | x :: pre, s, rest, hsorted, haligned, hbound, hdvd, hlo, hcnt, hnext, hwalk => by
    rw [List.cons_append, List.map_cons] at hsorted haligned hbound hnext
    have hsorted' := (List.pairwise_cons.mp hsorted).2
    have hgt := (List.pairwise_cons.mp hsorted).1
    have hxd : fileBlockSize ∣ x.2 := haligned x.2 (List.mem_cons_self _ _)
    have hxb : x.2 < 2 ^ 32 := hbound x.2 (List.mem_cons_self _ _)
    have hbr := beforeRange_iff blockRange hsize hfbs hxd hxb
    have hx := Walk_next_cons _ s x pre hwalk
    rw [Walk_cons_next _ s x pre hx] at hwalk ⊢
    have hcount := visitBundle_count env store fileBlockSize blockRange printDetails s x
    by_cases hbefore : beforeRange fileBlockSize blockRange x.2 = true
    · have hv := visitBundle_before env store fileBlockSize blockRange printDetails s x hbefore
      have hxlt := hbr.mp hbefore
      have hfl : fileBlockSize ≤ s.expected := by
        have := dvd_add_le_of_lt hxd (RoundToBundleStartBlock_dvd _ _) hxlt
        omega
      apply walk_prefix_invariant hsize hfbs pre _ rest hsorted'
        (fun b hb => haligned b (List.mem_cons_of_mem _ hb))
        (fun b hb => hbound b (List.mem_cons_of_mem _ hb))
      · rw [hv]; exact hdvd
      · rw [hv]; exact hlo
      · rw [hv]; exact fun _ => hfl
      · rw [hv]; exact fun b hb => hnext b (List.mem_cons_of_mem _ hb)
      · exact hwalk
    · have hbefore' : beforeRange fileBlockSize blockRange x.2 = false :=
        Bool.eq_false_iff.mpr hbefore
      obtain ⟨hexp, -, -⟩ :=
        visitBundle_processed env store fileBlockSize blockRange printDetails s x hbefore'
      rw [add64_eq (base_add_lt hfbs hxd hxb)] at hexp
      apply walk_prefix_invariant hsize hfbs pre _ rest hsorted'
        (fun b hb => haligned b (List.mem_cons_of_mem _ hb))
        (fun b hb => hbound b (List.mem_cons_of_mem _ hb))
      · rw [hexp]; exact Dvd.dvd.add hxd (dvd_refl _)
      · rw [hexp]
        have : ¬ x.2 < RoundToBundleStartBlock (toUint64 blockRange.Start) fileBlockSize :=
          fun h => hbefore (hbr.mpr h)
        omega
      · rw [hexp]; exact fun _ => Nat.le_add_left _ _
      · rw [hexp]
        exact fun b hb => Or.inr (dvd_add_le_of_lt hxd
          (haligned b (List.mem_cons_of_mem _ hb)) (hgt b hb))
      · exact hwalk

end walk

theorem RoundToBundleStartBlock_of_dvd {n fbs : Nat} (h : fbs ∣ n) :
    RoundToBundleStartBlock n fbs = n := by
  unfold RoundToBundleStartBlock
  rw [Nat.mod_eq_zero_of_dvd h, Nat.sub_zero]

theorem RoundToBundleEndBlock_of_dvd {n fbs : Nat} (hsize : 0 < fbs) (hfbs : fbs < 2 ^ 64)
    (h : fbs ∣ n) (hn : n + fbs ≤ 2 ^ 64) : RoundToBundleEndBlock n fbs = n + fbs - 1 := by
  rw [RoundToBundleEndBlock_eq hsize hfbs (by rw [RoundToBundleStartBlock_of_dvd h]; exact hn),
    RoundToBundleStartBlock_of_dvd h]

theorem toInt64_of_lt {n : Nat} (h : n < 2 ^ 63) : toInt64 n = (n : Int) := by
  unfold toInt64
  rw [Nat.mod_eq_of_lt (lt_trans h (by norm_num)), if_pos h]

/-- Claim C17. For bundles of `fileBlockSize > 0` blocks and a strictly
increasing sequence of aligned bases (below `2^32`, as the callback reads them),
when the callback reaches a processed bundle whose base differs from the
expected one, neither `uint64` subtraction underflows: `baseNum` is at least
`fileBlockSize`, and so is `expected` whenever `count > 1`; the missing range
printed is exactly `[expected, baseNum - 1]`. -/
theorem reportMismatch_subtractions_exact {F : Type} (env : Env F) (store : Store)
    (storeURL : String) (fileBlockSize : Nat) (blockRange : BlockRange)
    (printDetails : PrintDetails) (pre : List (String × Nat)) (x : String × Nat)
    (post : List (String × Nat))
    (hsize : 0 < fileBlockSize) (hfbs : fileBlockSize < 2 ^ 64)
    (hsorted : ((pre ++ x :: post).map Prod.snd).Pairwise (· < ·))
    (haligned : ∀ b ∈ (pre ++ x :: post).map Prod.snd, fileBlockSize ∣ b)
    (hbound : ∀ b ∈ (pre ++ x :: post).map Prod.snd, b < 2 ^ 32)
    (hreach : (Walk (visitBundle env store fileBlockSize blockRange printDetails)
      (initState env storeURL fileBlockSize blockRange printDetails) pre).2 = Signal.next)
    (hproc : beforeRange fileBlockSize blockRange x.2 = false)
    (hmis : x.2 ≠ (walkEnd env store storeURL fileBlockSize blockRange printDetails
      pre).expected) :
    fileBlockSize ≤ x.2 ∧ sub64 x.2 fileBlockSize = x.2 - fileBlockSize ∧
      ((walkEnd env store storeURL fileBlockSize blockRange printDetails pre).count + 1 > 1 →
        fileBlockSize ≤
            (walkEnd env store storeURL fileBlockSize blockRange printDetails pre).expected ∧
          sub64 (walkEnd env store storeURL fileBlockSize blockRange printDetails pre).expected
              fileBlockSize
            = (walkEnd env store storeURL fileBlockSize blockRange printDetails pre).expected
                - fileBlockSize) ∧
      (walkEnd env store storeURL fileBlockSize blockRange printDetails pre).expected
        ≤ x.2 - 1 ∧
      (reportMismatch fileBlockSize x.2
          { walkEnd env store storeURL fileBlockSize blockRange printDetails pre with
            count := (walkEnd env store storeURL fileBlockSize blockRange printDetails
              pre).count + 1 }).out
        = (if (walkEnd env store storeURL fileBlockSize blockRange printDetails pre).count + 1
              > 1 then
            (walkEnd env store storeURL fileBlockSize blockRange printDetails pre).out ++
              [Line.covered (NewClosedRange
                (toInt64 (walkEnd env store storeURL fileBlockSize blockRange printDetails
                  pre).currentStartBlk)
                (RoundToBundleEndBlock
                  ((walkEnd env store storeURL fileBlockSize blockRange printDetails
                    pre).expected - fileBlockSize) fileBlockSize))]
          else (walkEnd env store storeURL fileBlockSize blockRange printDetails pre).out) ++
          [Line.missing
            ⟨((walkEnd env store storeURL fileBlockSize blockRange printDetails
                pre).expected : Int), some (x.2 - 1)⟩] := by
  have hinv := walk_prefix_invariant env store fileBlockSize blockRange printDetails hsize hfbs
    pre (initState env storeURL fileBlockSize blockRange printDetails) (x :: post) hsorted
    haligned hbound (RoundToBundleStartBlock_dvd _ _) (le_refl _)
    (fun h => absurd h (by show ¬ 1 ≤ 0; omega))
    (fun b _ => by
      rcases Nat.lt_or_ge b (RoundToBundleStartBlock (toUint64 blockRange.Start)
        fileBlockSize) with h | h
      · exact Or.inl h
      · exact Or.inr h)
    hreach
  have hw : walkEnd env store storeURL fileBlockSize blockRange printDetails pre
      = (Walk (visitBundle env store fileBlockSize blockRange printDetails)
          (initState env storeURL fileBlockSize blockRange printDetails) pre).1 := rfl
  rw [← hw] at hinv
  obtain ⟨hdvd, -, hcnt, hnext⟩ := hinv
  have hxmem : x.2 ∈ (pre ++ x :: post).map Prod.snd := by
    rw [List.map_append, List.map_cons]
    exact List.mem_append_right _ (List.mem_cons_self _ _)
  have hxd : fileBlockSize ∣ x.2 := haligned x.2 hxmem
  have hxb : x.2 < 2 ^ 32 := hbound x.2 hxmem
  have hbr := beforeRange_iff blockRange hsize hfbs hxd hxb
  have hge : (walkEnd env store storeURL fileBlockSize blockRange printDetails pre).expected
      ≤ x.2 := by
    rcases hnext x.2 (by rw [List.map_cons]; exact List.mem_cons_self _ _) with h | h
    · have := hbr.mpr h
      rw [hproc] at this
      exact absurd this Bool.false_ne_true
    · exact h
  have hlt : (walkEnd env store storeURL fileBlockSize blockRange printDetails pre).expected
      < x.2 := lt_of_le_of_ne hge (fun h => hmis h.symm)
  have hstep := dvd_add_le_of_lt hdvd hxd hlt
  have h64 : (2 : Nat) ^ 32 < 2 ^ 64 := by norm_num
  have h63 : (2 : Nat) ^ 32 < 2 ^ 63 := by norm_num
  have hx1 : fileBlockSize ≤ x.2 := by omega
  have hsubx : sub64 x.2 fileBlockSize = x.2 - fileBlockSize := sub64_eq (by omega) hx1
  have hend : RoundToBundleEndBlock (x.2 - fileBlockSize) fileBlockSize = x.2 - 1 := by
    rw [RoundToBundleEndBlock_of_dvd hsize hfbs ((Nat.dvd_sub' hxd (dvd_refl _))) (by omega)]
    omega
  refine ⟨hx1, hsubx, ?_, by omega, ?_⟩
  · intro hc
    have hfe := hcnt (by omega)
    exact ⟨hfe, sub64_eq (by omega) hfe⟩
  · unfold reportMismatch
    rw [if_pos hmis]
    show (if (walkEnd env store storeURL fileBlockSize blockRange printDetails pre).count + 1
          > 1 then
        (walkEnd env store storeURL fileBlockSize blockRange printDetails pre).out ++
          [Line.covered (NewClosedRange
            (toInt64 (walkEnd env store storeURL fileBlockSize blockRange printDetails
              pre).currentStartBlk)
            (RoundToBundleEndBlock
              (sub64 (walkEnd env store storeURL fileBlockSize blockRange printDetails
                pre).expected fileBlockSize) fileBlockSize))]
      else (walkEnd env store storeURL fileBlockSize blockRange printDetails pre).out) ++
      [Line.missing (NewClosedRange
        (toInt64 (walkEnd env store storeURL fileBlockSize blockRange printDetails
          pre).expected)
        (RoundToBundleEndBlock (sub64 x.2 fileBlockSize) fileBlockSize))] = _
    rw [hsubx, hend, toInt64_of_lt
      (n := (walkEnd env store storeURL fileBlockSize blockRange printDetails pre).expected)
      (by omega)]
    by_cases hc : (walkEnd env store storeURL fileBlockSize blockRange printDetails pre).count
        + 1 > 1
    · rw [if_pos hc, if_pos hc, sub64_eq (by omega) (hcnt (by omega))]
      rfl
    · rw [if_neg hc, if_neg hc]
      rfl

/-- Witness for claim C17: bundles 0, 100, 300 of 100 blocks in the range
`[0, 400)`; at base 300 the expected base is 200. -/
theorem reportMismatch_subtractions_exact_witness :
    100 ≤ 300 ∧ sub64 300 100 = 300 - 100 :=
  ⟨(reportMismatch_subtractions_exact (listingEnv []) (listingStore []) "store" 100
      ⟨0, some 400⟩ PrintDetails.PrintNoDetails [("0000000000", 0), ("0000000100", 100)]
      ("0000000300", 300) [] (by decide) (by decide) (by decide) (by decide) (by decide)
      (by decide) (by decide) (by decide)).1,
    (reportMismatch_subtractions_exact (listingEnv []) (listingStore []) "store" 100
      ⟨0, some 400⟩ PrintDetails.PrintNoDetails [("0000000000", 0), ("0000000100", 100)]
      ("0000000300", 300) [] (by decide) (by decide) (by decide) (by decide) (by decide)
      (by decide) (by decide) (by decide)).2.1⟩

section walk

variable {F : Type} (env : Env F) (store : Store) (fileBlockSize : Nat)
  (blockRange : BlockRange) (printDetails : PrintDetails)

theorem flushProgress_of_multiple (b : Nat) (s : WalkState F) (h : s.count % 10000 = 0) :
    flushProgress fileBlockSize b s =
      { s with out := s.out ++ [Line.covered (NewClosedRange (toInt64 s.currentStartBlk)
                 (RoundToBundleEndBlock b fileBlockSize))],
               currentStartBlk := add64 b fileBlockSize } := by
  unfold flushProgress
  rw [if_pos h]

theorem preFlush_count (s : WalkState F) (x : String × Nat) :
    (preFlush env store fileBlockSize blockRange printDetails s x).count = s.count + 1 := by
  unfold preFlush
  rw [(recordSeen_track env store fileBlockSize blockRange printDetails x.1 x.2 _).2.2.1]
  exact reportMismatch_count fileBlockSize x.2 _

/-- A processed bundle on which the callback returns: the result is the flush
statement applied to the variables as they stand before it. -/
theorem visitBundle_flush (s : WalkState F) (x : String × Nat)
    (hb : beforeRange fileBlockSize blockRange x.2 = false)
    (hp : (visitBundle env store fileBlockSize blockRange printDetails s x).2 ≠ Signal.panic) :
    (visitBundle env store fileBlockSize blockRange printDetails s x).1 =
      flushProgress fileBlockSize x.2
        (preFlush env store fileBlockSize blockRange printDetails s x) := by
  rw [visitBundle_of_not_before env store fileBlockSize blockRange printDetails s x hb] at hp ⊢
  by_cases hpan : (recordSeen env store fileBlockSize blockRange printDetails x.1 x.2
      { reportMismatch fileBlockSize x.2 { s with count := s.count + 1 } with
        expected := add64 x.2 fileBlockSize }).2 = true
  · rw [if_pos hpan] at hp
    exact absurd rfl hp
  · rw [if_neg hpan]
    rfl

/-- The flush of the walk callback, bundle by bundle: it prints the covered
range `[currentStartBlk, roundToBundleEnd(b)]` and moves `currentStartBlk` to
`b + fileBlockSize` exactly when `count`, which the callback has raised by one,
is a multiple of 10,000; an ignored bundle prints nothing. -/
theorem visitBundle_flush_iff (s : WalkState F) (x : String × Nat) :
    (beforeRange fileBlockSize blockRange x.2 = true →
      (visitBundle env store fileBlockSize blockRange printDetails s x).1.out = s.out ∧
      (visitBundle env store fileBlockSize blockRange printDetails s x).1.currentStartBlk
        = s.currentStartBlk) ∧
    (beforeRange fileBlockSize blockRange x.2 = false →
      (visitBundle env store fileBlockSize blockRange printDetails s x).2 ≠ Signal.panic →
      ((s.count + 1) % 10000 = 0 →
        (visitBundle env store fileBlockSize blockRange printDetails s x).1.out =
          (preFlush env store fileBlockSize blockRange printDetails s x).out ++
            [Line.covered (NewClosedRange
              (toInt64 (preFlush env store fileBlockSize blockRange printDetails s
                x).currentStartBlk)
              (RoundToBundleEndBlock x.2 fileBlockSize))] ∧
        (visitBundle env store fileBlockSize blockRange printDetails s x).1.currentStartBlk
          = add64 x.2 fileBlockSize) ∧
      ((s.count + 1) % 10000 ≠ 0 →
        (visitBundle env store fileBlockSize blockRange printDetails s x).1.out =
          (preFlush env store fileBlockSize blockRange printDetails s x).out ∧
        (visitBundle env store fileBlockSize blockRange printDetails s x).1.currentStartBlk
          = (preFlush env store fileBlockSize blockRange printDetails s x).currentStartBlk)) := by
  constructor
  · intro hb
    rw [visitBundle_before env store fileBlockSize blockRange printDetails s x hb]
    exact ⟨rfl, rfl⟩
  · intro hb hp
    rw [visitBundle_flush env store fileBlockSize blockRange printDetails s x hb hp]
    have hc := preFlush_count env store fileBlockSize blockRange printDetails s x
    constructor
    · intro h
      rw [flushProgress_of_multiple fileBlockSize x.2 _ (by rw [hc]; exact h)]
      exact ⟨rfl, rfl⟩
    · intro h
      rw [flushProgress_of_not_multiple fileBlockSize x.2 _ (by rw [hc]; exact h)]
      exact ⟨rfl, rfl⟩

end walk

/-- Claim C13, amended. When the callback is called on a bundle after the
bundles `pre` (so that `pre.length + 1` keys have been visited, ignored ones
included), `count` was `pre.length`; if the bundle is ignored nothing is
printed; if it is processed and the callback returns, the covered-range
progress line `[currentStartBlk, roundToBundleEnd(b)]` is printed and
`currentStartBlk` set to `b + fileBlockSize` when `pre.length + 1` is a
multiple of 10,000, and nothing is printed by the flush otherwise. -/
theorem flushProgress_every_10000_visited {F : Type} (env : Env F) (store : Store)
    (storeURL : String) (fileBlockSize : Nat) (blockRange : BlockRange)
    (printDetails : PrintDetails) (pre : List (String × Nat)) (x : String × Nat)
    (hreach : (Walk (visitBundle env store fileBlockSize blockRange printDetails)
      (initState env storeURL fileBlockSize blockRange printDetails) pre).2 = Signal.next) :
    (walkEnd env store storeURL fileBlockSize blockRange printDetails pre).count = pre.length ∧
    (beforeRange fileBlockSize blockRange x.2 = true →
      (visitBundle env store fileBlockSize blockRange printDetails
        (walkEnd env store storeURL fileBlockSize blockRange printDetails pre) x).1.out
        = (walkEnd env store storeURL fileBlockSize blockRange printDetails pre).out ∧
      (visitBundle env store fileBlockSize blockRange printDetails
        (walkEnd env store storeURL fileBlockSize blockRange printDetails pre)
          x).1.currentStartBlk
        = (walkEnd env store storeURL fileBlockSize blockRange printDetails
            pre).currentStartBlk) ∧
    (beforeRange fileBlockSize blockRange x.2 = false →
      (visitBundle env store fileBlockSize blockRange printDetails
        (walkEnd env store storeURL fileBlockSize blockRange printDetails pre) x).2
        ≠ Signal.panic →
      ((pre.length + 1) % 10000 = 0 →
        (visitBundle env store fileBlockSize blockRange printDetails
          (walkEnd env store storeURL fileBlockSize blockRange printDetails pre) x).1.out =
          (preFlush env store fileBlockSize blockRange printDetails
            (walkEnd env store storeURL fileBlockSize blockRange printDetails pre) x).out ++
            [Line.covered (NewClosedRange
              (toInt64 (preFlush env store fileBlockSize blockRange printDetails
                (walkEnd env store storeURL fileBlockSize blockRange printDetails pre)
                  x).currentStartBlk)
              (RoundToBundleEndBlock x.2 fileBlockSize))] ∧
        (visitBundle env store fileBlockSize blockRange printDetails
          (walkEnd env store storeURL fileBlockSize blockRange printDetails pre)
            x).1.currentStartBlk = add64 x.2 fileBlockSize) ∧
      ((pre.length + 1) % 10000 ≠ 0 →
        (visitBundle env store fileBlockSize blockRange printDetails
          (walkEnd env store storeURL fileBlockSize blockRange printDetails pre) x).1.out =
          (preFlush env store fileBlockSize blockRange printDetails
            (walkEnd env store storeURL fileBlockSize blockRange printDetails pre) x).out ∧
        (visitBundle env store fileBlockSize blockRange printDetails
          (walkEnd env store storeURL fileBlockSize blockRange printDetails pre)
            x).1.currentStartBlk
          = (preFlush env store fileBlockSize blockRange printDetails
              (walkEnd env store storeURL fileBlockSize blockRange printDetails pre)
                x).currentStartBlk)) := by
  have hc : (walkEnd env store storeURL fileBlockSize blockRange printDetails pre).count
      = pre.length := by
    unfold walkEnd
    rw [walk_count env store fileBlockSize blockRange printDetails pre _ hreach]
    show 0 + pre.length = pre.length
    omega
  have h := visitBundle_flush_iff env store fileBlockSize blockRange printDetails
    (walkEnd env store storeURL fileBlockSize blockRange printDetails pre) x
  rw [hc] at h
  exact ⟨hc, h.1, h.2⟩

/-- Witness for claim C13: the second bundle of a walk, where 2 keys have been
visited, prints no progress line. -/
theorem flushProgress_every_10000_visited_witness :
    (walkEnd (listingEnv []) (listingStore []) "store" 100 ⟨0, none⟩
      PrintDetails.PrintNoDetails [("0000000000", 0)]).count = [("0000000000", 0)].length :=
  (flushProgress_every_10000_visited (listingEnv []) (listingStore []) "store" 100 ⟨0, none⟩
    PrintDetails.PrintNoDetails [("0000000000", 0)] ("0000000100", 100) (by decide)).1

theorem Walk_singleton_fst {σ α : Type} (f : σ → α → σ × Signal) (s : σ) (x : α) :
    (Walk f s [x]).1 = (f s x).1 := by
  by_cases h : (f s x).2 = Signal.next
  · rw [Walk_cons_next f s x [] h]
    rfl
  · rw [Walk_cons_halt f s x [] h]

theorem visited_of_all_next {σ α : Type} (f : σ → α → σ × Signal)
    (hf : ∀ s x, (f s x).2 = Signal.next) : ∀ (l : List α) (s : σ), visited f s l = l
  | [], _ => rfl
  | x :: rest, s => by
    rw [visited_cons_next f s x rest (hf s x), visited_of_all_next f hf rest]

theorem Walk_of_all_next {σ α : Type} (f : σ → α → σ × Signal)
    (hf : ∀ s x, (f s x).2 = Signal.next) : ∀ (l : List α) (s : σ),
      (Walk f s l).2 = Signal.next
  | [], _ => rfl
  | x :: rest, s => by
    rw [Walk_cons_next f s x rest (hf s x)]
    exact Walk_of_all_next f hf rest _

theorem gapFreeBundles_bases (first size n : Nat) :
    (gapFreeBundles first size n).map Prod.snd
      = (List.range n).map (fun i => first + i * size) := by
  unfold gapFreeBundles
  rw [List.map_map]
  rfl

theorem gapFreeBundles_length (first size n : Nat) :
    (gapFreeBundles first size n).length = n := by
  unfold gapFreeBundles
  rw [List.length_map, List.length_range]

theorem gapFreeBundles_succ (first size n : Nat) :
    gapFreeBundles first size (n + 1) = gapFreeBundles first size n ++
      [(String.mk (Sprintf010 (first + n * size)), first + n * size)] := by
  unfold gapFreeBundles
  rw [List.range_succ, List.map_append]
  rfl

section walk

variable {F : Type} (env : Env F) (store : Store) (fileBlockSize : Nat)

/-- Listing-only mode over an open range: the callback always returns `nil`. -/
theorem visitBundle_open_listing_next (start : Int) (s : WalkState F) (x : String × Nat) :
    (visitBundle env store fileBlockSize ⟨start, none⟩ PrintDetails.PrintNoDetails s x).2
      = Signal.next := by
  cases h : (visitBundle env store fileBlockSize ⟨start, none⟩ PrintDetails.PrintNoDetails
      s x).2 with
  | next => rfl
  | stop =>
    have h1 := (visitBundle_stop env store fileBlockSize _ _ s x h).2
    rw [stopSignal_open] at h1
    exact Bool.noConfusion h1
  | panic => exact absurd h (visitBundle_listing_no_panic env store fileBlockSize _ s x)

end walk

/-- With bundles of 100 and a range starting at 100, none of the bundles 100, 200, ...,
999900 is ignored. -/
theorem gapFreeBundles_not_before : ∀ i, i < 9999 → beforeRange 100 ⟨100, none⟩ (100 + i * 100) = false := by
  intro i hi
  have hstart : RoundToBundleStartBlock (toUint64 (100 : Int)) 100 = 100 := by decide
  rw [← Bool.not_eq_true, beforeRange_iff ⟨100, none⟩ (by norm_num) (by norm_num)
    (Dvd.dvd.add (dvd_refl _) (Dvd.intro_left i rfl))
    (by have : (9999 : Nat) * 100 + 100 < 2 ^ 32 := by norm_num
        omega), hstart]
  omega

/-- After the ignored bundle 0, the 9,998 bundles 100, ..., 999800 leave the start of the
current run at 100. -/
theorem walk_ten_thousand_start : (Walk (visitBundle (listingEnv []) (listingStore []) 100 ⟨100, none⟩
            PrintDetails.PrintNoDetails)
          { initState (listingEnv []) "store" 100 ⟨100, none⟩ PrintDetails.PrintNoDetails with
            count := 0 + 1 } (gapFreeBundles 100 100 9998)).1.currentStartBlk = 100 := by
  have hgap := walk_gap_free (listingEnv []) (listingStore []) 100 ⟨100, none⟩
      PrintDetails.PrintNoDetails (by norm_num) (by norm_num) (gapFreeBundles 100 100 9998)
      { initState (listingEnv []) "store" 100 ⟨100, none⟩ PrintDetails.PrintNoDetails with
        count := 0 + 1 }
      (by rw [gapFreeBundles_bases, gapFreeBundles_length]; rfl)
      (by rw [gapFreeBundles_length]; show 0 + 1 + 9998 < 10000; norm_num)
      (by
        intro b hb
        rw [gapFreeBundles_bases] at hb
        obtain ⟨i, hi, rfl⟩ := List.mem_map.mp hb
        have := List.mem_range.mp hi
        have h32 : (9999 : Nat) * 100 + 100 < 2 ^ 32 := by norm_num
        omega)
      (RoundToBundleStartBlock_dvd _ _) (le_refl _)
      (initState_out_not_range (listingEnv []) "store" 100 ⟨100, none⟩
        PrintDetails.PrintNoDetails)
  rw [hgap.2.1]
  rfl

/-- The ignored bundle 0 only increments `count`. -/
theorem walk_ignored_first (n : Nat) : Walk (visitBundle (listingEnv []) (listingStore []) 100 ⟨100, none⟩
          PrintDetails.PrintNoDetails)
        (initState (listingEnv []) "store" 100 ⟨100, none⟩ PrintDetails.PrintNoDetails)
        (("0000000000", 0) :: gapFreeBundles 100 100 n)
        = Walk (visitBundle (listingEnv []) (listingStore []) 100 ⟨100, none⟩
            PrintDetails.PrintNoDetails)
          { initState (listingEnv []) "store" 100 ⟨100, none⟩ PrintDetails.PrintNoDetails with
            count := 0 + 1 } (gapFreeBundles 100 100 n) := by
  have hnext := visitBundle_open_listing_next (listingEnv []) (listingStore []) 100 100
  have hb0 : beforeRange 100 ⟨100, none⟩ 0 = true := by decide
  have hv0 := visitBundle_before (listingEnv []) (listingStore []) 100 ⟨100, none⟩
      PrintDetails.PrintNoDetails
      (initState (listingEnv []) "store" 100 ⟨100, none⟩ PrintDetails.PrintNoDetails)
      ("0000000000", 0) hb0
  rw [Walk_cons_next _ _ _ _ (hnext _ _), hv0]
  rfl

/-- After bundle 0 and the bundles 100, ..., 999800, the expected base is 999900. -/
theorem walk_ten_thousand_expected : (Walk (visitBundle (listingEnv []) (listingStore []) 100 ⟨100, none⟩
          PrintDetails.PrintNoDetails)
        (initState (listingEnv []) "store" 100 ⟨100, none⟩ PrintDetails.PrintNoDetails)
        (("0000000000", 0) :: gapFreeBundles 100 100 9998)).1.expected
        = 100 + 9998 * 100 := by
  have hnext := visitBundle_open_listing_next (listingEnv []) (listingStore []) 100 100
  have hs : (("0000000000", 0) :: gapFreeBundles 100 100 9998 : List (String × Nat))
          = (("0000000000", 0) :: gapFreeBundles 100 100 9997) ++
            [(String.mk (Sprintf010 (100 + 9997 * 100)), 100 + 9997 * 100)] := by
    rw [gapFreeBundles_succ 100 100 9997]
    rfl
  rw [hs, Walk_append _ _ _ _ (Walk_of_all_next _ hnext _ _), Walk_singleton_fst,
        (visitBundle_processed (listingEnv []) (listingStore []) 100 ⟨100, none⟩
          PrintDetails.PrintNoDetails _
          (String.mk (Sprintf010 (100 + 9997 * 100)), 100 + 9997 * 100)
          (gapFreeBundles_not_before 9997 (by norm_num))).1]
  rw [add64_eq (by norm_num)]

/-- After bundle 0 and the bundles 100, ..., 999800, `count` is 9,999. -/
theorem walk_ten_thousand_count : (Walk (visitBundle (listingEnv []) (listingStore []) 100 ⟨100, none⟩ PrintDetails.PrintNoDetails)
          (initState (listingEnv []) "store" 100 ⟨100, none⟩ PrintDetails.PrintNoDetails)
          (("0000000000", 0) :: gapFreeBundles 100 100 9998)).1.count = 9999 := by
  have hnext := visitBundle_open_listing_next (listingEnv []) (listingStore []) 100 100
  have hwnext := Walk_of_all_next _ hnext (("0000000000", 0) :: gapFreeBundles 100 100 9998)
      (initState (listingEnv []) "store" 100 ⟨100, none⟩ PrintDetails.PrintNoDetails)
  have hcount := walk_count (listingEnv []) (listingStore []) 100 ⟨100, none⟩
      PrintDetails.PrintNoDetails (("0000000000", 0) :: gapFreeBundles 100 100 9998) _ hwnext
  rw [List.length_cons, gapFreeBundles_length] at hcount
  rw [hcount]
  rfl

/-- A bundle at the expected base leaves the start of the current run unchanged before
the progress check. -/
theorem preFlush_of_expected {F : Type} (env : Env F) (store : Store) (fileBlockSize : Nat)
    (blockRange : BlockRange) (printDetails : PrintDetails) (s : WalkState F)
    (x : String × Nat) (h : x.2 = s.expected) :
    (preFlush env store fileBlockSize blockRange printDetails s x).currentStartBlk
      = s.currentStartBlk := by
  unfold preFlush
  rw [(recordSeen_track env store fileBlockSize blockRange printDetails _ _ _).2.2.2,
    reportMismatch_of_eq fileBlockSize x.2 { s with count := s.count + 1 } h]

/-- Before processing bundle 999900 the start of the current run is still 100. -/
theorem walk_ten_thousand_preFlush :
    (preFlush (listingEnv []) (listingStore []) 100 ⟨100, none⟩
        PrintDetails.PrintNoDetails
        (Walk (visitBundle (listingEnv []) (listingStore []) 100 ⟨100, none⟩
            PrintDetails.PrintNoDetails)
          (initState (listingEnv []) "store" 100 ⟨100, none⟩ PrintDetails.PrintNoDetails)
          (("0000000000", 0) :: gapFreeBundles 100 100 9998)).1
        (String.mk (Sprintf010 (100 + 9998 * 100)), 100 + 9998 * 100)).currentStartBlk
        = 100 := by
  rw [preFlush_of_expected _ _ _ _ _ _ _ walk_ten_thousand_expected.symm,
    walk_ignored_first 9998]
  exact walk_ten_thousand_start

/-- The last of the 10,000 keys 0, 100, ..., 999900 ends with the progress line. -/
theorem walk_ten_thousand_last :
    (visitBundle (listingEnv []) (listingStore []) 100 ⟨100, none⟩
        PrintDetails.PrintNoDetails
        (Walk (visitBundle (listingEnv []) (listingStore []) 100 ⟨100, none⟩
            PrintDetails.PrintNoDetails)
          (initState (listingEnv []) "store" 100 ⟨100, none⟩ PrintDetails.PrintNoDetails)
          (("0000000000", 0) :: gapFreeBundles 100 100 9998)).1
        (String.mk (Sprintf010 (100 + 9998 * 100)), 100 + 9998 * 100)).1.out
      = (preFlush (listingEnv []) (listingStore []) 100 ⟨100, none⟩
          PrintDetails.PrintNoDetails
          (Walk (visitBundle (listingEnv []) (listingStore []) 100 ⟨100, none⟩
              PrintDetails.PrintNoDetails)
            (initState (listingEnv []) "store" 100 ⟨100, none⟩ PrintDetails.PrintNoDetails)
            (("0000000000", 0) :: gapFreeBundles 100 100 9998)).1
          (String.mk (Sprintf010 (100 + 9998 * 100)), 100 + 9998 * 100)).out ++
        [Line.covered ⟨100, some 999999⟩] := by
  have hflush := ((visitBundle_flush_iff (listingEnv []) (listingStore []) 100 ⟨100, none⟩
    PrintDetails.PrintNoDetails
    (Walk (visitBundle (listingEnv []) (listingStore []) 100 ⟨100, none⟩
        PrintDetails.PrintNoDetails)
      (initState (listingEnv []) "store" 100 ⟨100, none⟩ PrintDetails.PrintNoDetails)
      (("0000000000", 0) :: gapFreeBundles 100 100 9998)).1
    (String.mk (Sprintf010 (100 + 9998 * 100)), 100 + 9998 * 100)).2
    (gapFreeBundles_not_before 9998 (by norm_num))
    (visitBundle_listing_no_panic (listingEnv []) (listingStore []) 100 ⟨100, none⟩ _ _)).1
    (by rw [walk_ten_thousand_count])
  rw [hflush.1, walk_ten_thousand_preFlush]
  rfl

/-- The keys 0, 100, ..., 999900 split off their last key. -/
theorem ten_thousand_keys_split :
    (("0000000000", 0) :: gapFreeBundles 100 100 9999 : List (String × Nat))
      = (("0000000000", 0) :: gapFreeBundles 100 100 9998) ++
        [(String.mk (Sprintf010 (100 + 9998 * 100)), 100 + 9998 * 100)] := by
  rw [gapFreeBundles_succ 100 100 9998]
  rfl

/-- Counterexample to claim C13 as stated: bundles of 100, open range starting
at 100, listing-only mode, and 10,000 keys: bundle 0, which is ignored, then the
9,999 bundles 100, 200, ..., 999900.  Only 9,999 bundles are processed, yet the
last one finds `count = 10000` and prints the progress line `[100, 999999]`. -/
theorem flushProgress_counts_ignored_bundles :
    (processedBases (listingEnv []) (listingStore []) 100 ⟨100, none⟩
        PrintDetails.PrintNoDetails
        (initState (listingEnv []) "store" 100 ⟨100, none⟩ PrintDetails.PrintNoDetails)
        (("0000000000", 0) :: gapFreeBundles 100 100 9999)).length = 9999 ∧
      Line.covered ⟨100, some 999999⟩ ∈
        (walkEnd (listingEnv []) (listingStore []) "store" 100 ⟨100, none⟩
          PrintDetails.PrintNoDetails
          (("0000000000", 0) :: gapFreeBundles 100 100 9999)).out := by
  have hnext := visitBundle_open_listing_next (listingEnv []) (listingStore []) 100 100
  have hb0 : beforeRange 100 ⟨100, none⟩ 0 = true := by decide
  constructor
  · unfold processedBases
    rw [visited_of_all_next _ hnext, List.map_cons, gapFreeBundles_bases,
      List.filter_cons_of_neg (by rw [hb0]; exact Bool.false_ne_true),
      List.filter_eq_self.mpr, List.length_map, List.length_range]
    intro b hb
    obtain ⟨i, hi, rfl⟩ := List.mem_map.mp hb
    rw [gapFreeBundles_not_before i (List.mem_range.mp hi)]
    rfl
  · unfold walkEnd
    rw [ten_thousand_keys_split, Walk_append _ _ _ _ (Walk_of_all_next _ hnext _ _),
      Walk_singleton_fst, walk_ten_thousand_last]
    exact List.mem_append_right _ (List.mem_singleton.mpr rfl)

section ordered

variable {F : Type} (env : Env F) (store : Store) (fileBlockSize : Nat)
  (blockRange : BlockRange)

end ordered

section ordered

variable {F : Type} (env : Env F) (store : Store) (fileBlockSize : Nat)
  (blockRange : BlockRange)

end ordered

end Tools

namespace Firecore

/-- The first name of the enum. -/
theorem slice_text : slice _PrintOutputModeName 0 4 = "Text" := by decide

/-- The second name of the enum. -/
theorem slice_json : slice _PrintOutputModeName 4 8 = "JSON" := by decide

/-- The rune mapping of one-byte characters sends `'A'` to `'Z'` up by 32. -/
theorem asciiLowerRune_upper (c : Char) (h1 : 65 ≤ c.toNat) (h2 : c.toNat ≤ 90) :
    asciiLowerRune c = Char.ofNat (c.toNat + 32) := by
  unfold asciiLowerRune
  rw [if_pos ⟨h1, h2⟩]

/-- The rune mapping of one-byte characters keeps `'a'` to `'z'`. -/
theorem asciiLowerRune_lower (c : Char) (h1 : 97 ≤ c.toNat) (_h2 : c.toNat ≤ 122) :
    asciiLowerRune c = c := by
  unfold asciiLowerRune
  rw [if_neg (by omega)]

/-- The rune mapping of one-byte characters never yields one of `'A'` to `'Z'`. -/
theorem asciiLowerRune_not_upper (c : Char) :
    ¬ (65 ≤ (asciiLowerRune c).toNat ∧ (asciiLowerRune c).toNat ≤ 90) := by
  unfold asciiLowerRune
  by_cases h : 65 ≤ c.toNat ∧ c.toNat ≤ 90
  · rw [if_pos h]
    obtain ⟨h1, h2⟩ := h
    generalize c.toNat = n at h1 h2
    interval_cases n <;> decide
  · rw [if_neg h]
    exact h

section parse

variable (lowerRune : Char → Char)

/-- A lowercased string does not start with a character the rune mapping never
yields. -/
theorem ToLower_ne_of_head (name : String) (c : Char) (cs : List Char)
    (h : ∀ d : Char, lowerRune d ≠ c) : ToLower lowerRune name ≠ String.mk (c :: cs) := by
  intro heq
  have hd : name.data.map lowerRune = c :: cs := congrArg String.data heq
  cases hn : name.data with
  | nil =>
    rw [hn] at hd
    cases hd
  | cons d ds =>
    rw [hn, List.map_cons] at hd
    exact h d (List.head_eq_of_cons_eq hd)

/-- The lookup in `_PrintOutputModeValue` once its computed keys are known. -/
theorem PrintOutputModeValue_eq (htext : ToLower lowerRune "Text" = "text")
    (hjson : ToLower lowerRune "JSON" = "json") (name : String) :
    _PrintOutputModeValue lowerRune name =
      if name = "json" then some PrintOutputModeJSON
      else if name = "JSON" then some PrintOutputModeJSON
      else if name = "text" then some PrintOutputModeText
      else if name = "Text" then some PrintOutputModeText
      else none := by
  unfold _PrintOutputModeValue
  rw [slice_text, slice_json, htext, hjson]

end parse

/-- Claim C19.  With `unicode.ToLower` a rune mapping that sends `'A'` to `'Z'` up by
32, keeps `'a'` to `'z'` and never yields one of `'A'` to `'Z'`:
`ParsePrintOutputMode(x.String())` returns `x` and no error for both defined
values; `ParsePrintOutputMode(name)` returns no error exactly when the lowercase
form of `name` is `"text"` or `"json"`, with the value `Text` or `JSON`
respectively; and when it returns an error the value is the zero value. -/
theorem ParsePrintOutputMode_round_trip_case_insensitive (lowerRune : Char → Char)
    (hupper : ∀ c : Char, 65 ≤ c.toNat → c.toNat ≤ 90 →
      lowerRune c = Char.ofNat (c.toNat + 32))
    (hlower : ∀ c : Char, 97 ≤ c.toNat → c.toNat ≤ 122 → lowerRune c = c)
    (hnoupper : ∀ c : Char, ¬ (65 ≤ (lowerRune c).toNat ∧ (lowerRune c).toNat ≤ 90)) :
    (∀ x, x = PrintOutputModeText ∨ x = PrintOutputModeJSON →
      ParsePrintOutputMode lowerRune (PrintOutputMode.String x) = (x, none)) ∧
    (∀ name : String,
      ((ParsePrintOutputMode lowerRune name).2 = none ↔
        (ToLower lowerRune name = "text" ∨ ToLower lowerRune name = "json")) ∧
      (ToLower lowerRune name = "text" →
        ParsePrintOutputMode lowerRune name = (PrintOutputModeText, none)) ∧
      (ToLower lowerRune name = "json" →
        ParsePrintOutputMode lowerRune name = (PrintOutputModeJSON, none)) ∧
      ((ParsePrintOutputMode lowerRune name).2 ≠ none →
        (ParsePrintOutputMode lowerRune name).1 = ⟨0⟩)) := by
  have hT : lowerRune 'T' = 't' := hupper 'T' (by decide) (by decide)
  have hJ : lowerRune 'J' = 'j' := hupper 'J' (by decide) (by decide)
  have hS : lowerRune 'S' = 's' := hupper 'S' (by decide) (by decide)
  have hO : lowerRune 'O' = 'o' := hupper 'O' (by decide) (by decide)
  have hN : lowerRune 'N' = 'n' := hupper 'N' (by decide) (by decide)
  have he : lowerRune 'e' = 'e' := hlower 'e' (by decide) (by decide)
  have hx : lowerRune 'x' = 'x' := hlower 'x' (by decide) (by decide)
  have ht : lowerRune 't' = 't' := hlower 't' (by decide) (by decide)
  have hj : lowerRune 'j' = 'j' := hlower 'j' (by decide) (by decide)
  have hs : lowerRune 's' = 's' := hlower 's' (by decide) (by decide)
  have ho : lowerRune 'o' = 'o' := hlower 'o' (by decide) (by decide)
  have hn : lowerRune 'n' = 'n' := hlower 'n' (by decide) (by decide)
  have hText : ToLower lowerRune "Text" = "text" := by
    show String.mk [lowerRune 'T', lowerRune 'e', lowerRune 'x', lowerRune 't'] = "text"
    rw [hT, he, hx, ht]
  have hJSON : ToLower lowerRune "JSON" = "json" := by
    show String.mk [lowerRune 'J', lowerRune 'S', lowerRune 'O', lowerRune 'N'] = "json"
    rw [hJ, hS, hO, hN]
  have htext : ToLower lowerRune "text" = "text" := by
    show String.mk [lowerRune 't', lowerRune 'e', lowerRune 'x', lowerRune 't'] = "text"
    rw [he, hx, ht]
  have hjson : ToLower lowerRune "json" = "json" := by
    show String.mk [lowerRune 'j', lowerRune 's', lowerRune 'o', lowerRune 'n'] = "json"
    rw [hj, hs, ho, hn]
  have hnT : ∀ name, ToLower lowerRune name ≠ "Text" := fun name =>
    ToLower_ne_of_head lowerRune name 'T' ['e', 'x', 't']
      (fun d hd => hnoupper d (by rw [hd]; decide))
  have hnJ : ∀ name, ToLower lowerRune name ≠ "JSON" := fun name =>
    ToLower_ne_of_head lowerRune name 'J' ['S', 'O', 'N']
      (fun d hd => hnoupper d (by rw [hd]; decide))
  have hV := PrintOutputModeValue_eq lowerRune hText hJSON
  have hne : ("text" : String) ≠ "json" := by decide
  have hparse : ∀ name : String,
      (ToLower lowerRune name = "text" →
        ParsePrintOutputMode lowerRune name = (PrintOutputModeText, none)) ∧
      (ToLower lowerRune name = "json" →
        ParsePrintOutputMode lowerRune name = (PrintOutputModeJSON, none)) ∧
      (ToLower lowerRune name ≠ "text" → ToLower lowerRune name ≠ "json" →
        (ParsePrintOutputMode lowerRune name).1 = ⟨0⟩ ∧
        (ParsePrintOutputMode lowerRune name).2 ≠ none) := by
    intro name
    unfold ParsePrintOutputMode
    rw [hV name, hV (ToLower lowerRune name), if_neg (hnJ name)]
    by_cases h1 : name = "json"
    · subst h1
      rw [if_pos rfl, hjson]
      exact ⟨fun h => absurd h.symm hne, fun _ => rfl, fun _ h => absurd rfl h⟩
    rw [if_neg h1]
    by_cases h2 : name = "JSON"
    · subst h2
      rw [if_pos rfl, hJSON]
      exact ⟨fun h => absurd h.symm hne, fun _ => rfl, fun _ h => absurd rfl h⟩
    rw [if_neg h2]
    by_cases h3 : name = "text"
    · subst h3
      rw [if_pos rfl, htext]
      exact ⟨fun _ => rfl, fun h => absurd h hne, fun h _ => absurd rfl h⟩
    rw [if_neg h3]
    by_cases h4 : name = "Text"
    · subst h4
      rw [if_pos rfl, hText]
      exact ⟨fun _ => rfl, fun h => absurd h hne, fun h _ => absurd rfl h⟩
    rw [if_neg h4]
    by_cases h5 : ToLower lowerRune name = "json"
    · rw [if_pos h5]
      exact ⟨fun h => absurd (h5.symm.trans h).symm hne, fun _ => rfl, fun _ h => absurd h5 h⟩
    rw [if_neg h5]
    by_cases h6 : ToLower lowerRune name = "text"
    · rw [if_pos h6]
      exact ⟨fun _ => rfl, fun h => absurd h h5, fun h _ => absurd h6 h⟩
    rw [if_neg h6, if_neg (hnT name)]
    exact ⟨fun h => absurd h h6, fun h => absurd h h5,
      fun _ _ => ⟨rfl, fun h => Option.noConfusion h⟩⟩
  refine ⟨?_, ?_⟩
  · intro x hx
    rcases hx with rfl | rfl
    · exact (hparse "Text").1 hText
    · exact (hparse "JSON").2.1 hJSON
  · intro name
    obtain ⟨p1, p2, p3⟩ := hparse name
    refine ⟨⟨?_, ?_⟩, p1, p2, ?_⟩
    · intro hnone
      by_contra hcon
      rw [not_or] at hcon
      exact (p3 hcon.1 hcon.2).2 hnone
    · rintro (h | h)
      · rw [p1 h]
      · rw [p2 h]
    · intro herr
      by_cases h1 : ToLower lowerRune name = "text"
      · rw [p1 h1] at herr
        exact absurd rfl herr
      · by_cases h2 : ToLower lowerRune name = "json"
        · rw [p2 h2] at herr
          exact absurd rfl herr
        · exact (p3 h1 h2).1

/-- Witness for claim C19: with the rune mapping of one-byte characters,
`ParsePrintOutputMode("JsOn")` is `JSON` with no error. -/
theorem ParsePrintOutputMode_round_trip_case_insensitive_witness :
    ParsePrintOutputMode asciiLowerRune "JsOn" = (PrintOutputModeJSON, none) :=
  ((ParsePrintOutputMode_round_trip_case_insensitive asciiLowerRune asciiLowerRune_upper
    asciiLowerRune_lower asciiLowerRune_not_upper).2 "JsOn").2.2.1 (by decide)

end Firecore
